import Mathlib

/-!
# mp4date: box scanner, in-place patch driver and epoch conversion

A shallow embedding of `mp4date.cpp`.  The program walks the boxes of an MP4
file along the path `ftyp > moov > mvhd` and then reads or overwrites the
creation time stored at the start of the `mvhd` body.

The class `mp4Stream` is declared in `mp4stream.h`, which is not part of the
sources at hand; its operations are modelled from section 4.1 of the
specification (Byte Stream Accessor).  Everything else follows the C++ text.
The C library is modelled as far as the program uses it: `sscanf_s` and `printf`
with `%u` conversions, and `mktime` and `localtime_s` as parameters, with their
UTC versions for concrete runs.
-/

namespace Mp4Date

/-! ## Bytes and big-endian encodings -/

/-- One octet of the file. -/
abbrev Byte := Fin 256

/-- The low eight bits of a number, as an octet. -/
def toByte (n : Nat) : Byte := ⟨n % 256, Nat.mod_lt n (by decide)⟩

/-- Big-endian value of a sequence of octets. -/
def beDecode (bs : List Byte) : Nat :=
  bs.foldl (fun acc b => acc * 256 + b.val) 0

/-- Four octets, most significant first, of the low 32 bits of `n`. -/
def be32 (n : Nat) : List Byte :=
  [toByte (n / 2 ^ 24), toByte (n / 2 ^ 16), toByte (n / 2 ^ 8), toByte n]

/-- Eight octets, most significant first, of the low 64 bits of `n`. -/
def be64 (n : Nat) : List Byte :=
  [toByte (n / 2 ^ 56), toByte (n / 2 ^ 48), toByte (n / 2 ^ 40), toByte (n / 2 ^ 32),
   toByte (n / 2 ^ 24), toByte (n / 2 ^ 16), toByte (n / 2 ^ 8), toByte n]

/-! ## The byte stream accessor -/

deriving instance DecidableEq for Except

/-- Failures of the underlying storage (section 7 of the specification: fatal,
propagated at once). -/
inductive IOErr where
  | truncated
  | writeError
  | seekError
  deriving DecidableEq, Repr

/-- Modelled from the spec: the class `mp4Stream` of `mp4stream.h` (absent from
the sources).  A random-access binary file together with the single cursor the
accessor owns. -/
structure mp4Stream where
  data : List Byte
  pos : Nat
  deriving DecidableEq, Repr

/-- Modelled from the spec: the constructor `mp4Stream( fname )`, which opens the
file for reading and writing without truncating it; the cursor starts at the
first octet. -/
def mp4Stream.open (file : List Byte) : mp4Stream := ⟨file, 0⟩

/-- Modelled from the spec: `eof()`, "reports whether the cursor is at or past the
file's end". -/
def mp4Stream.eof (s : mp4Stream) : Bool := decide (s.data.length ≤ s.pos)

/-- Modelled from the spec: `read( buf, n )`, which consumes `n` octets and advances
the cursor by `n`, failing with `IOTruncated` if fewer octets remain. -/
def mp4Stream.read (s : mp4Stream) (n : Nat) : Except IOErr (List Byte × mp4Stream) :=
  if s.pos + n ≤ s.data.length then
    .ok ((s.data.drop s.pos).take n, { s with pos := s.pos + n })
  else
    .error .truncated

/-- Modelled from the spec: `readUint8()`, one octet. -/
def mp4Stream.readUint8 (s : mp4Stream) : Except IOErr (Nat × mp4Stream) :=
  match s.read 1 with
  | .error e => .error e
  | .ok (bs, s1) => .ok (beDecode bs, s1)

/-- Modelled from the spec: `readUint32()`, a big-endian 32-bit value. -/
def mp4Stream.readUint32 (s : mp4Stream) : Except IOErr (Nat × mp4Stream) :=
  match s.read 4 with
  | .error e => .error e
  | .ok (bs, s1) => .ok (beDecode bs, s1)

/-- Modelled from the spec: `readUint64()`, a big-endian 64-bit value. -/
def mp4Stream.readUint64 (s : mp4Stream) : Except IOErr (Nat × mp4Stream) :=
  match s.read 8 with
  | .error e => .error e
  | .ok (bs, s1) => .ok (beDecode bs, s1)

/-- Modelled from the spec: the write primitive behind `writeUint32` and
`writeUint64`, which overwrites octets at the cursor "without changing file
length"; a write that does not fit in the file is an `IOWriteError`. -/
def mp4Stream.write (s : mp4Stream) (bs : List Byte) : Except IOErr mp4Stream :=
  if s.pos + bs.length ≤ s.data.length then
    .ok { data := s.data.take s.pos ++ bs ++ s.data.drop (s.pos + bs.length),
          pos := s.pos + bs.length }
  else
    .error .writeError

/-- Modelled from the spec: `writeUint32( v )`, big-endian. -/
def mp4Stream.writeUint32 (s : mp4Stream) (v : Nat) : Except IOErr mp4Stream :=
  s.write (be32 v)

/-- Modelled from the spec: `writeUint64( v )`, big-endian. -/
def mp4Stream.writeUint64 (s : mp4Stream) (v : Nat) : Except IOErr mp4Stream :=
  s.write (be64 v)

/-- The value of a 64-bit unsigned number once converted to the signed 64-bit
offset type that `seekp` takes. -/
def toStreamoff (n : Nat) : Int :=
  if n % 2 ^ 64 < 2 ^ 63 then ((n % 2 ^ 64 : Nat) : Int)
  else ((n % 2 ^ 64 : Nat) : Int) - 2 ^ 64

/-- Modelled from the spec: `seekp( off, ios::cur )`, the relative seek, with an
offset already of the signed offset type (the source also calls it with `-4`): the
cursor moves by `off`; a target before the first octet is a seek failure, one past
the last octet is allowed (the next read is then truncated). -/
def mp4Stream.seekpCur (s : mp4Stream) (off : Int) : Except IOErr mp4Stream :=
  if (s.pos : Int) + off < 0 then .error .seekError
  else .ok { s with pos := ((s.pos : Int) + off).toNat }

/-- Modelled from the spec: `ignore( n )`, which skips `n` octets, stopping at the end
of the file. -/
def mp4Stream.ignore (s : mp4Stream) (n : Nat) : mp4Stream :=
  { s with pos := max s.pos (min (s.pos + n) s.data.length) }

/-! ## Box headers -/

/-- The two widths of `size_t` the program is built for: 32 bits (the Win32
console target named in the source) and 64 bits. -/
inductive Target where
  | x86
  | x64
  deriving DecidableEq, Repr

/-- Number of bits of `size_t`, the type of `sizeof( uint32_t )`. -/
def Target.sizeBits : Target → Nat
  | .x86 => 32
  | .x64 => 64

/-- The constant `NAME_LEN`. -/
def NAME_LEN : Nat := 4

/-- The structure `hdr_t`; `name` holds the `NAME_LEN` octets read (the
terminating NUL the source appends is left implicit). -/
structure hdr_t where
  len : Nat
  name : List Byte
  deriving DecidableEq, Repr

/-- The function `readHdr`.  `none` stands for the result `false`. -/
def readHdr (t : Target) (stream : mp4Stream) : Except IOErr (Option hdr_t × mp4Stream) :=
  match stream.readUint32 with
  | .error e => .error e
  | .ok (len, s1) =>
    let sized : Except IOErr (Nat × mp4Stream) :=
      if len = 1 then
        match s1.readUint64 with
        | .error e => .error e
        | .ok (ext, s2) => .ok ((ext + 2 ^ 64 - 4 - 8) % 2 ^ 64, s2)
      else
        .ok ((len + 2 ^ t.sizeBits - 4) % 2 ^ t.sizeBits, s1)
    match sized with
    | .error e => .error e
    | .ok (hlen, s2) =>
      if hlen < 4 then .ok (none, s2)
      else
        match s2.read NAME_LEN with
        | .error e => .error e
        | .ok (name, s3) => .ok (some { len := (hlen + 2 ^ 64 - NAME_LEN) % 2 ^ 64, name := name }, s3)

/-! ## The scanner -/

/-- The enumeration `state_t`. -/
inductive state_t where
  | findFtyp
  | findMoov
  | findMvhd
  | found
  deriving DecidableEq, Repr

/-- The octets of a C string up to its first NUL. -/
def cstr (bs : List Byte) : List Byte := bs.takeWhile (fun b => b ≠ 0)

/-- The test `strcmp( a, b ) == 0`. -/
def strcmpEq (a b : List Byte) : Bool := decide (cstr a = cstr b)

/-- The literal "ftyp". -/
def ftyp : List Byte := [102, 116, 121, 112]

/-- The literal "moov". -/
def moov : List Byte := [109, 111, 111, 118]

/-- The literal "mvhd". -/
def mvhd : List Byte := [109, 118, 104, 100]

/-- How the `while` loop of `main` stands after some iterations. -/
inductive ScanResult where
  | exited (s : mp4Stream) (st : state_t)
  | malformed (s : mp4Stream)
  | ioError (e : IOErr) (s : mp4Stream)
  | running (s : mp4Stream) (st : state_t)
  deriving DecidableEq, Repr

/-- The stream as the loop leaves it. -/
def ScanResult.stream : ScanResult → mp4Stream
  | .exited s _ => s
  | .malformed s => s
  | .ioError _ s => s
  | .running s _ => s

/-- The `switch` of one loop iteration: the new state and, when the payload is
skipped, the offset handed to `seekp`. -/
def scanSwitch (state : state_t) (hdr : hdr_t) : state_t × Option Nat :=
  match state with
  | .findFtyp =>
    if strcmpEq hdr.name ftyp then (.findMoov, some hdr.len) else (.findFtyp, some hdr.len)
  | .findMoov =>
    if strcmpEq hdr.name moov then (.findMvhd, none) else (.findMoov, some hdr.len)
  | .findMvhd =>
    if strcmpEq hdr.name mvhd then (.found, none) else (.findMvhd, some hdr.len)
  | .found => (.found, none)

/-- The body of the `while` loop of `main`: one header read, then the `switch`.
`Sum.inl` is the loop going round again, `Sum.inr` is the loop left for good. -/
def scanStep (t : Target) (stream : mp4Stream) (state : state_t) :
    (mp4Stream × state_t) ⊕ ScanResult :=
  match readHdr t stream with
  | .error e => .inr (.ioError e stream)
  | .ok (none, s1) => .inr (.malformed s1)
  | .ok (some hdr, s1) =>
    match scanSwitch state hdr with
    | (st, none) => .inl (s1, st)
    | (st, some off) =>
      match s1.seekpCur (toStreamoff off) with
      | .error e => .inr (.ioError e s1)
      | .ok s2 => .inl (s2, st)

/-- The `while` loop of `main`, run for at most `fuel` tests of its condition;
`running` is the loop not yet over when the fuel is spent. -/
def scanLoop (t : Target) : Nat → mp4Stream → state_t → ScanResult
  | 0, stream, state => .running stream state
  | fuel + 1, stream, state =>
    if !stream.eof && state != .found then
      match scanStep t stream state with
      | .inl (s1, st) => scanLoop t fuel s1 st
      | .inr r => r
    else
      .exited stream state

/-! ## Epoch conversion -/

/-- The constant `diff`: seconds from 1904-01-01 to 1970-01-01. -/
def diff : Nat := 2082844800

/-- The function `time1904to1970` on 64-bit unsigned values. -/
def time1904to1970 (t : Nat) : Nat := (t + 2 ^ 64 - diff) % 2 ^ 64

/-- The function `time1970to1904` on 64-bit unsigned values. -/
def time1970to1904 (t : Nat) : Nat := (t + diff) % 2 ^ 64

/-! ## The patch driver and `main` -/

/-- How a run ends: with an exit code, with a storage failure, or not at all
within the fuel given to the scan loop. -/
inductive Outcome where
  | exit (code : Int)
  | ioError (e : IOErr)
  | running
  deriving DecidableEq, Repr

/-- What a run leaves behind: how it ended, the content of the file, and the
epoch-1904 value handed to `printTime1904`, if any. -/
structure RunResult where
  outcome : Outcome
  file : List Byte
  printed : Option Nat
  deriving DecidableEq, Repr

/-- The part of `main` after the scan loop: the end-of-file test, the version
octet, the three reserved octets and the read or overwrite of the creation time.
`date` is `some d` when `--create` was given and parsed to `d`. -/
def patch (dryrun : Bool) (date : Option Nat) (stream : mp4Stream) : RunResult :=
  if stream.eof then ⟨.exit (-4), stream.data, none⟩
  else
    match stream.readUint8 with
    | .error e => ⟨.ioError e, stream.data, none⟩
    | .ok (version, s1) =>
      let s2 := s1.ignore 3
      match date with
      | some date1904 =>
        if dryrun then ⟨.exit 0, s2.data, some date1904⟩
        else if version = 1 then
          match s2.writeUint64 date1904 with
          | .error e => ⟨.ioError e, s2.data, none⟩
          | .ok s3 => ⟨.exit 0, s3.data, none⟩
        else
          match s2.readUint32 with
          | .error e => ⟨.ioError e, s2.data, none⟩
          | .ok (_, s3) =>
            match s3.seekpCur (-4) with
            | .error e => ⟨.ioError e, s3.data, none⟩
            | .ok s4 =>
              match s4.writeUint32 (date1904 % 2 ^ 32) with
              | .error e => ⟨.ioError e, s4.data, none⟩
              | .ok s5 => ⟨.exit 0, s5.data, none⟩
      | none =>
        match (if version = 1 then s2.readUint64 else s2.readUint32) with
        | .error e => ⟨.ioError e, s2.data, none⟩
        | .ok (creationTime, s3) => ⟨.exit 0, s3.data, some creationTime⟩

/-- The part of `main` from the opening of the file on: the scan loop, then the
patch driver. -/
def run (t : Target) (fuel : Nat) (dryrun : Bool) (date : Option Nat) (file : List Byte) :
    RunResult :=
  match scanLoop t fuel (mp4Stream.open file) .findFtyp with
  | .exited s _ => patch dryrun date s
  | .malformed s => ⟨.exit (-3), s.data, none⟩
  | .ioError e s => ⟨.ioError e, s.data, none⟩
  | .running s _ => ⟨.running, s.data, none⟩

/-- The function `getCmdOption`: the argument that follows the first occurrence
of `option`. -/
def getCmdOption : List String → String → Option String
  | [], _ => none
  | a :: rest, option => if a = option then rest.head? else getCmdOption rest option

/-- The function `cmdOptionExists`. -/
def cmdOptionExists (args : List String) (option : String) : Bool :=
  args.contains option

/-- The function `main`.  `string2time1904` is the date parser (its calendar
conversion depends on the local time zone), `file` the content of the file named
by `--file`. -/
def main (t : Target) (string2time1904 : String → Nat) (fuel : Nat) (argv : List String)
    (file : List Byte) : RunResult :=
  let dryrun := cmdOptionExists argv "--dry-run"
  let fname := getCmdOption argv "--file"
  let date := getCmdOption argv "--create"
  match fname with
  | none => ⟨.exit (-1), file, none⟩
  | some _ =>
    match date with
    | some text =>
      let date1904 := string2time1904 text % 2 ^ 64
      if date1904 = 0 then ⟨.exit (-1), file, none⟩
      else run t fuel dryrun (some date1904) file
    | none => run t fuel dryrun none file

/-! ## Well-formed boxes and the files made of them -/

/-- A box as the scanner sees it: whether its header is in extended form, its tag
and its payload. -/
structure Box where
  ext : Bool
  tag : List Byte
  payload : List Byte
  deriving DecidableEq, Repr

/-- Octets taken by the header: length field(s) and tag. -/
def Box.headerLen (b : Box) : Nat := if b.ext then 16 else 8

/-- The encoded length of the box: header and payload. -/
def Box.size (b : Box) : Nat := b.headerLen + b.payload.length

/-- The header octets, in the order `readHdr` consumes them. -/
def Box.header (b : Box) : List Byte :=
  if b.ext then be32 1 ++ be64 b.size ++ b.tag else be32 b.size ++ b.tag

/-- The octets of the whole box. -/
def Box.encode (b : Box) : List Byte := b.header ++ b.payload

/-- A box is well formed when its tag has four octets and its length fits the
length field of its form. -/
def Box.wf (b : Box) : Prop :=
  b.tag.length = 4 ∧ (b.ext = false → b.size < 2 ^ 32)

instance (b : Box) : Decidable b.wf := by
  unfold Box.wf
  infer_instance

/-- A run of boxes, one after the other. -/
def encodeBoxes : List Box → List Byte
  | [] => []
  | b :: bs => b.encode ++ encodeBoxes bs

/-- The tag a scanner state waits for. -/
def state_t.expects : state_t → List Byte
  | .findFtyp => ftyp
  | .findMoov => moov
  | .findMvhd => mvhd
  | .found => []

/-- A file laid out as: top-level boxes `pre`, the `ftyp` box, top-level boxes
`mid`, the `moov` box, then whatever follows. -/
def layout (pre : List Box) (ftypB : Box) (mid : List Box) (moovB : Box)
    (fileTail : List Byte) : List Byte :=
  encodeBoxes pre ++ (ftypB.encode ++ (encodeBoxes mid ++ (moovB.encode ++ fileTail)))

/-- Offset of the first octet of the `mvhd` body in such a file, where `kids` are
the children of `moov` that come before `mvhd`. -/
def mvhdBodyOffset (pre : List Box) (ftypB : Box) (mid : List Box) (moovB : Box)
    (kids : List Box) (mvhdB : Box) : Nat :=
  (encodeBoxes pre).length + ftypB.size + (encodeBoxes mid).length + moovB.headerLen
    + (encodeBoxes kids).length + mvhdB.headerLen

/-! ## Sample files -/

/-- The minimal file: `ftyp` (12 octets), `moov` header (length 24), `mvhd`
(length 16, version 0, creation time 0). -/
def minimalFile : List Byte :=
  be32 12 ++ ftyp ++ [105, 115, 111, 109] ++
  be32 24 ++ moov ++
  be32 16 ++ mvhd ++ [0, 0, 0, 0] ++ be32 0


/-- The minimal file with the version octet set to 1 and a 64-bit creation
time. -/
def version1File : List Byte :=
  be32 12 ++ ftyp ++ [105, 115, 111, 109] ++
  be32 28 ++ moov ++
  be32 20 ++ mvhd ++ [1, 0, 0, 0] ++ be64 0

/-- The minimal file with the version octet set to 2. -/
def version2File : List Byte :=
  be32 12 ++ ftyp ++ [105, 115, 111, 109] ++
  be32 24 ++ moov ++
  be32 16 ++ mvhd ++ [2, 0, 0, 0] ++ be32 0

/-- A file of one extended-form box whose 64-bit length field is zero. -/
def zeroExtendedFile : List Byte := be32 1 ++ be64 0 ++ [102, 114, 101, 101]

/-- A file of one standard-form box whose 32-bit length field is zero. -/
def zeroStandardFile : List Byte := be32 0 ++ [102, 114, 101, 101]

/-- A file with a leading `free` box, an extended-form child before `mvhd` and
trailing octets. -/
def sampleFile : List Byte :=
  layout [⟨false, [102, 114, 101, 101], [7]⟩] ⟨false, ftyp, [105, 115, 111, 109]⟩ []
    ⟨false, moov, encodeBoxes [⟨true, [117, 100, 116, 97], [1, 2]⟩]
      ++ (Box.encode ⟨false, mvhd, [0, 0, 0, 0, 0, 0, 0, 9]⟩ ++ [])⟩ [5, 5]

/-- The state that follows a state in the order `findFtyp`, `findMoov`,
`findMvhd`, `found`. -/
def state_t.next : state_t → state_t
  | .findFtyp => .findMoov
  | .findMoov => .findMvhd
  | .findMvhd => .found
  | .found => .found

/-- Position of a state in that order. -/
def state_t.rank : state_t → Nat
  | .findFtyp => 0
  | .findMoov => 1
  | .findMvhd => 2
  | .found => 3

/-- The patch driver as the specification words it for version 0: after the version
octet and the three reserved octets, read mode reads a 32-bit creation time; write
mode reads 4 octets, seeks back 4 and overwrites those 4 octets with the low 32
bits of the new time.  The value of the version octet plays no part. -/
def patch32 (dryrun : Bool) (date : Option Nat) (stream : mp4Stream) : RunResult :=
  if stream.eof then ⟨.exit (-4), stream.data, none⟩
  else
    match stream.readUint8 with
    | .error e => ⟨.ioError e, stream.data, none⟩
    | .ok (_, s1) =>
      let s2 := s1.ignore 3
      match date with
      | some date1904 =>
        if dryrun then ⟨.exit 0, s2.data, some date1904⟩
        else
          match s2.readUint32 with
          | .error e => ⟨.ioError e, s2.data, none⟩
          | .ok (_, s3) =>
            match s3.seekpCur (-4) with
            | .error e => ⟨.ioError e, s3.data, none⟩
            | .ok s4 =>
              match s4.writeUint32 (date1904 % 2 ^ 32) with
              | .error e => ⟨.ioError e, s4.data, none⟩
              | .ok s5 => ⟨.exit 0, s5.data, none⟩
      | none =>
        match s2.readUint32 with
        | .error e => ⟨.ioError e, s2.data, none⟩
        | .ok (creationTime, s3) => ⟨.exit 0, s3.data, some creationTime⟩

/-- A file on which the scan walks over the creation-time field before it reaches
`found`: `ftyp` (length 36), then at offset 36 an extended-form header whose length
`2 ^ 64 - 20` sends the cursor back to offset 16, where `moov` and `mvhd` follow;
the `mvhd` body starts at offset 32 and its creation time is the octets 36 to 39. -/
def trapFile : List Byte :=
  be32 36 ++ ftyp ++ [0, 0, 0, 0, 0, 0, 0, 0] ++
  be32 24 ++ moov ++
  be32 16 ++ mvhd ++ [0, 0, 0, 0] ++
  be32 1 ++ be64 (2 ^ 64 - 20) ++ [102, 114, 101, 101]

/-- A file of eight octets: a standard-form header of length 5, too short to hold
its own header, with the tag `free`. -/
def shortBoxFile : List Byte := be32 5 ++ [102, 114, 101, 101]

/-- A file whose `moov` box is empty and is followed by a top-level `mvhd` box:
`ftyp` (12 octets), `moov` (8 octets, no payload), `mvhd` (16 octets, version 0,
creation time 0). -/
def orphanFile : List Byte :=
  be32 12 ++ ftyp ++ [105, 115, 111, 109] ++
  be32 8 ++ moov ++
  be32 16 ++ mvhd ++ [0, 0, 0, 0] ++ be32 0

/-- Offset of the end of the `moov` box in a file laid out by `layout`. -/
def moovEndOffset (pre : List Box) (ftypB : Box) (mid : List Box) (moovB : Box) : Nat :=
  (encodeBoxes pre).length + ftypB.size + (encodeBoxes mid).length + moovB.size

/-! ## The timestamp codec -/

/-- The structure `tm` of `<time.h>`. -/
structure tm where
  tm_sec : Int
  tm_min : Int
  tm_hour : Int
  tm_mday : Int
  tm_mon : Int
  tm_year : Int
  tm_wday : Int
  tm_yday : Int
  tm_isdst : Int
  deriving DecidableEq, Repr

/-- The characters of a C string, as their codes. -/
def cchars (s : String) : List Nat := s.toList.map Char.toNat

/-- The test `isspace` of `<ctype.h>` in the C locale. -/
def isspace (c : Nat) : Bool := decide (c = 32 ∨ (9 ≤ c ∧ c ≤ 13))

/-- The test `isdigit` of `<ctype.h>`. -/
def isdigit (c : Nat) : Bool := decide (48 ≤ c ∧ c ≤ 57)

/-- The directives the format strings of the program are made of: an ordinary
character, or a conversion `%u` with its zero flag and its width. -/
inductive Directive where
  | lit (c : Nat)
  | uint (pad0 : Bool) (width : Option Nat)
  deriving DecidableEq, Repr

/-- Reading of a format string, character by character; the first argument is the
conversion specification being read, if any. -/
def parseFormatAux : Option (Bool × Option Nat) → List Nat → List Directive
  | none, [] => []
  | none, c :: cs =>
    if c = 37 then parseFormatAux (some (false, none)) cs
    else .lit c :: parseFormatAux none cs
  | some _, [] => []
  | some (pad0, width), c :: cs =>
    if c = 48 ∧ width = none then parseFormatAux (some (true, none)) cs
    else if isdigit c then parseFormatAux (some (pad0, some (width.getD 0 * 10 + (c - 48)))) cs
    else if c = 117 then .uint pad0 width :: parseFormatAux none cs
    else []

/-- The directives of a format string. -/
def parseFormat (fmt : String) : List Directive := parseFormatAux none (cchars fmt)

/-- An input with its leading white space removed. -/
def skipWs (inp : List Nat) : List Nat := inp.dropWhile isspace

/-- The conversion `%u` of `sscanf_s` on an input without leading white space: an
optional sign, then decimal digits, at most `width` characters in all; the value is
taken modulo `2 ^ 32` and negated modulo `2 ^ 32` after a minus sign.  `none` is a
matching failure. -/
def scanUInt (width : Option Nat) (inp : List Nat) : Option (Nat × List Nat) :=
  match inp with
  | [] => none
  | c :: rest =>
    let w := width.getD (c :: rest).length
    let signed := decide (c = 45 ∨ c = 43)
    let body := if signed then rest else c :: rest
    let room := if signed then w - 1 else w
    let digits := (body.take room).takeWhile isdigit
    if digits = [] then none
    else
      let v := digits.foldl (fun acc d => (acc * 10 + (d - 48)) % 2 ^ 32) 0
      some (if c = 45 then (2 ^ 32 - v) % 2 ^ 32 else v, body.drop digits.length)

/-- The matching loop of `sscanf_s`: the values converted, in order, and whether the
loop stopped because the input ran out. -/
def scanItems : List Directive → List Nat → List Nat × Bool
  | [], _ => ([], false)
  | .lit c :: ds, inp =>
    if isspace c then scanItems ds (skipWs inp)
    else
      match inp with
      | [] => ([], true)
      | x :: xs => if x = c then scanItems ds xs else ([], false)
  | .uint _ w :: ds, inp =>
    match skipWs inp with
    | [] => ([], true)
    | c :: cs =>
      match scanUInt w (c :: cs) with
      | none => ([], false)
      | some (v, rest) => (v :: (scanItems ds rest).1, (scanItems ds rest).2)

/-- The call `sscanf_s( s, fmt, ... )` with `%u` conversions only: the value
returned (the number of conversions stored, or `EOF = -1` when the input runs out
before the first one) and the values stored, in the order of the pointer
arguments. -/
def sscanf_s (inp : List Nat) (fmt : String) : Int × List Nat :=
  let r := scanItems (parseFormat fmt) inp
  (if r.1 = [] ∧ r.2 = true then -1 else (r.1.length : Int), r.1)

/-- The `int` whose 32 bits are those of an unsigned value. -/
def toInt32 (v : Nat) : Int :=
  if v % 2 ^ 32 < 2 ^ 31 then ((v % 2 ^ 32 : Nat) : Int) else ((v % 2 ^ 32 : Nat) : Int) - 2 ^ 32

/-- Store through the `i`-th of the pointers `&tm.tm_year, &tm.tm_mon, &tm.tm_mday,
&tm.tm_hour, &tm.tm_min, &tm.tm_sec`. -/
def setField (i : Nat) (v : Int) (c : tm) : tm :=
  match i with
  | 0 => { c with tm_year := v }
  | 1 => { c with tm_mon := v }
  | 2 => { c with tm_mday := v }
  | 3 => { c with tm_hour := v }
  | 4 => { c with tm_min := v }
  | 5 => { c with tm_sec := v }
  | _ => c

/-- Store the values converted by one `sscanf_s` call through those pointers, from
the `i`-th on. -/
def storeFields : Nat → List Nat → tm → tm
  | _, [], c => c
  | i, v :: vs, c => storeFields (i + 1) vs (setField i (toInt32 v) c)

/-- The statements `tm.tm_year -= 1900; tm.tm_mon -= 1; tm.tm_isdst = -1;`. -/
def adjust (c : tm) : tm :=
  { c with tm_year := c.tm_year - 1900, tm_mon := c.tm_mon - 1, tm_isdst := -1 }

/-- The part of `string2time1904` before the call of `mktime`: the structure `tm`
handed to `mktime`, or `none` when the function returns 0 for want of a match. -/
def string2tm (s : List Nat) : Option tm :=
  let tm0 : tm := ⟨0, 0, 0, 0, 0, 0, 0, 0, 0⟩
  let r1 := sscanf_s s "%04u-%02u-%02uT%02u:%02u:%02u"
  let tm1 := storeFields 0 r1.2 tm0
  if r1.1 = 6 then some (adjust tm1)
  else
    let r2 := sscanf_s s "%04u%02u%02uT%02u%02u%02u"
    let tm2 := storeFields 0 r2.2 tm1
    if r2.1 = 6 then some (adjust tm2)
    else
      let tm3 : tm := { tm2 with tm_hour := 0, tm_min := 0, tm_sec := 0 }
      let r3 := sscanf_s s "%04u-%02u-%02u"
      let tm4 := storeFields 0 r3.2 tm3
      if r3.1 = 3 then some (adjust tm4)
      else
        let r4 := sscanf_s s "%04u%02u%02u"
        let tm5 := storeFields 0 r4.2 tm4
        if r4.1 = 3 then some (adjust tm5)
        else
          let r5 := sscanf_s s "Johan (%uj%um)"
          if r5.1 = 2 then
            let years := r5.2.getD 0 0
            let months := r5.2.getD 1 0
            let months1 := (months + years * 12 % 2 ^ 32) % 2 ^ 32
            let months2 := (months1 + ((2003 - 1900) * 12 + 11)) % 2 ^ 32
            some { tm5 with tm_year := ((months2 / 12 : Nat) : Int),
                            tm_mon := ((months2 % 12 : Nat) : Int),
                            tm_mday := 1, tm_isdst := -1 }
          else none

/-- The unsigned 64-bit value of a `time_t`. -/
def toUInt64 (x : Int) : Nat := (x % 2 ^ 64).toNat

/-- The `time_t` of an unsigned 64-bit value. -/
def toTimeT (n : Nat) : Int :=
  if n % 2 ^ 64 < 2 ^ 63 then ((n % 2 ^ 64 : Nat) : Int) else ((n % 2 ^ 64 : Nat) : Int) - 2 ^ 64

/-- The function `string2time1904`; `mktime` is the C library function, which
depends on the local time zone. -/
def string2time1904 (mktime : tm → Int) (s : String) : Nat :=
  match string2tm (cchars s) with
  | none => 0
  | some c => time1970to1904 (toUInt64 (mktime c))

/-- The decimal digits of a number below `10 ^ fuel`, least significant first. -/
def digitsRev : Nat → Nat → List Nat
  | 0, _ => []
  | fuel + 1, n => (48 + n % 10) :: (if n / 10 = 0 then [] else digitsRev fuel (n / 10))

/-- The conversion `%u` of `printf` applied to an `int` argument: the decimal digits
of its 32 bits read as unsigned, padded on the left to the width. -/
def printUInt (pad0 : Bool) (width : Option Nat) (x : Int) : List Nat :=
  let ds := (digitsRev 10 (x % 2 ^ 32).toNat).reverse
  List.replicate (width.getD 0 - ds.length) (if pad0 then 48 else 32) ++ ds

/-- The output of `printf` for a format with `%u` conversions only. -/
def printf : List Directive → List Int → List Nat
  | [], _ => []
  | .lit c :: ds, args => c :: printf ds args
  | .uint _ _ :: _, [] => []
  | .uint pad0 w :: ds, x :: args => printUInt pad0 w x ++ printf ds args

/-- The function `printTime1904`: the characters it prints; `localtime` stands for
the C library function behind `localtime_s`, which depends on the local time zone. -/
def printTime1904 (localtime : Int → tm) (t1904 : Nat) : List Nat :=
  let c := localtime (toTimeT (time1904to1970 t1904))
  printf (parseFormat "%04u-%02u-%02uT%02u:%02u:%02u\n")
    [1900 + c.tm_year, 1 + c.tm_mon, c.tm_mday, c.tm_hour, c.tm_min, c.tm_sec]

/-- Days from 1970-01-01 to the given day of the proleptic Gregorian calendar. -/
def daysFromCivil (y m d : Int) : Int :=
  let y1 := if m ≤ 2 then y - 1 else y
  let era := y1 / 400
  let yoe := y1 - era * 400
  let mp := if m > 2 then m - 3 else m + 9
  let doy := (153 * mp + 2) / 5 + d - 1
  let doe := yoe * 365 + yoe / 4 - yoe / 100 + doy
  era * 146097 + doe - 719468

/-- The C library function `mktime` when the local time zone is UTC. -/
def mktimeUTC (c : tm) : Int :=
  let y := c.tm_year + 1900 + c.tm_mon / 12
  let m := c.tm_mon % 12 + 1
  (daysFromCivil y m 1 + (c.tm_mday - 1)) * 86400
    + c.tm_hour * 3600 + c.tm_min * 60 + c.tm_sec

/-- The C library function `localtime` when the local time zone is UTC. -/
def localtimeUTC (t : Int) : tm :=
  let days := t / 86400
  let secs := t % 86400
  let z := days + 719468
  let era := z / 146097
  let doe := z - era * 146097
  let yoe := (doe - doe / 1460 + doe / 36524 - doe / 146096) / 365
  let doy := doe - (365 * yoe + yoe / 4 - yoe / 100)
  let mp := (5 * doy + 2) / 153
  let d := doy - (153 * mp + 2) / 5 + 1
  let m := if mp < 10 then mp + 3 else mp - 9
  let y := yoe + era * 400 + (if m ≤ 2 then 1 else 0)
  { tm_sec := secs % 60, tm_min := secs / 60 % 60, tm_hour := secs / 3600,
    tm_mday := d, tm_mon := m - 1, tm_year := y - 1900,
    tm_wday := (days + 4) % 7, tm_yday := days - daysFromCivil y 1 1, tm_isdst := 0 }

/-- The ten characters `YYYY-MM-DD` made of the given decimal digits. -/
def dateChars (y3 y2 y1 y0 m1 m0 d1 d0 : Nat) : List Nat :=
  [48 + y3, 48 + y2, 48 + y1, 48 + y0, 45, 48 + m1, 48 + m0, 45, 48 + d1, 48 + d0]

/-- The nine characters `THH:MM:SS` made of the given decimal digits. -/
def timeChars (h1 h0 n1 n0 s1 s0 : Nat) : List Nat :=
  [84, 48 + h1, 48 + h0, 58, 48 + n1, 48 + n0, 58, 48 + s1, 48 + s0]

/-- An epoch-1904 value is representable, with given `localtime` and `mktime`, when
it is a 64-bit value, the calendar fields `localtime` gives for it fit the widths of
the print format (year 0 to 9999, the other fields 0 to 99), and `mktime` maps
those fields, with `tm_isdst = -1`, back to the same time. -/
def representable (localtime : Int → tm) (mktime : tm → Int) (t : Nat) : Prop :=
  t < 2 ^ 64
    ∧ (0 ≤ 1900 + (localtime (toTimeT (time1904to1970 t))).tm_year
      ∧ 1900 + (localtime (toTimeT (time1904to1970 t))).tm_year ≤ 9999)
    ∧ (0 ≤ 1 + (localtime (toTimeT (time1904to1970 t))).tm_mon
      ∧ 1 + (localtime (toTimeT (time1904to1970 t))).tm_mon ≤ 99)
    ∧ (0 ≤ (localtime (toTimeT (time1904to1970 t))).tm_mday
      ∧ (localtime (toTimeT (time1904to1970 t))).tm_mday ≤ 99)
    ∧ (0 ≤ (localtime (toTimeT (time1904to1970 t))).tm_hour
      ∧ (localtime (toTimeT (time1904to1970 t))).tm_hour ≤ 99)
    ∧ (0 ≤ (localtime (toTimeT (time1904to1970 t))).tm_min
      ∧ (localtime (toTimeT (time1904to1970 t))).tm_min ≤ 99)
    ∧ (0 ≤ (localtime (toTimeT (time1904to1970 t))).tm_sec
      ∧ (localtime (toTimeT (time1904to1970 t))).tm_sec ≤ 99)
    ∧ mktime ⟨(localtime (toTimeT (time1904to1970 t))).tm_sec,
        (localtime (toTimeT (time1904to1970 t))).tm_min,
        (localtime (toTimeT (time1904to1970 t))).tm_hour,
        (localtime (toTimeT (time1904to1970 t))).tm_mday,
        (localtime (toTimeT (time1904to1970 t))).tm_mon,
        (localtime (toTimeT (time1904to1970 t))).tm_year, 0, 0, -1⟩
      = toTimeT (time1904to1970 t)

instance (localtime : Int → tm) (mktime : tm → Int) (t : Nat) :
    Decidable (representable localtime mktime t) := by
  unfold representable
  infer_instance


/-! ## Encodings and stream reads -/

theorem beDecode_be32 (n : Nat) (h : n < 2 ^ 32) : beDecode (be32 n) = n := by
  simp only [beDecode, be32, toByte, List.foldl]
  omega

theorem beDecode_be64 (n : Nat) (h : n < 2 ^ 64) : beDecode (be64 n) = n := by
  simp only [beDecode, be64, toByte, List.foldl]
  omega

theorem length_be32 (n : Nat) : (be32 n).length = 4 := rfl

theorem length_be64 (n : Nat) : (be64 n).length = 8 := rfl

theorem drop_add_of_drop_eq {data : List Byte} {p : Nat} {xs rest : List Byte}
    (h : data.drop p = xs ++ rest) : data.drop (p + xs.length) = rest := by
  rw [← List.drop_drop, h, List.drop_left]

theorem read_of_drop_eq {s : mp4Stream} {xs rest : List Byte} (k : Nat)
    (h : s.data.drop s.pos = xs ++ rest) (hk : xs.length = k) (hpos : 0 < k) :
    s.read k = .ok (xs, ⟨s.data, s.pos + k⟩) := by
  have h1 : (s.data.drop s.pos).length = xs.length + rest.length := by rw [h, List.length_append]
  rw [List.length_drop] at h1
  have hle : s.pos + k ≤ s.data.length := by omega
  subst hk
  simp [mp4Stream.read, hle, h]

theorem readUint32_of_drop_eq {s : mp4Stream} {n : Nat} {rest : List Byte}
    (h : s.data.drop s.pos = be32 n ++ rest) (hn : n < 2 ^ 32) :
    s.readUint32 = .ok (n, ⟨s.data, s.pos + 4⟩) := by
  simp [mp4Stream.readUint32, read_of_drop_eq 4 h rfl (by decide), beDecode_be32 n hn]

theorem readUint64_of_drop_eq {s : mp4Stream} {n : Nat} {rest : List Byte}
    (h : s.data.drop s.pos = be64 n ++ rest) (hn : n < 2 ^ 64) :
    s.readUint64 = .ok (n, ⟨s.data, s.pos + 8⟩) := by
  simp [mp4Stream.readUint64, read_of_drop_eq 8 h rfl (by decide), beDecode_be64 n hn]

/-- A standard header whose length field covers the header is accepted. -/
theorem readHdr_standard (t : Target) {s : mp4Stream} {L : Nat} {tag rest : List Byte}
    (h : s.data.drop s.pos = be32 L ++ (tag ++ rest)) (htag : tag.length = 4)
    (h8 : 8 ≤ L) (h32 : L < 2 ^ 32) :
    readHdr t s = .ok (some ⟨L - 8, tag⟩, ⟨s.data, s.pos + 8⟩) := by
  have h1 : L ≠ 1 := by omega
  have hd := drop_add_of_drop_eq h
  rw [length_be32] at hd
  have hr : mp4Stream.read ⟨s.data, s.pos + 4⟩ 4
      = .ok (tag, ⟨s.data, s.pos + 4 + 4⟩) :=
    read_of_drop_eq (s := ⟨s.data, s.pos + 4⟩) 4 hd htag (by decide)
  have hlen : (L + 2 ^ t.sizeBits - 4) % 2 ^ t.sizeBits = L - 4 := by
    cases t <;> simp only [Target.sizeBits] <;> omega
  simp only [readHdr, readUint32_of_drop_eq h h32, h1, if_false, hlen, NAME_LEN]
  have h4 : ¬ (L - 4 < 4) := by omega
  simp only [h4, if_false, hr]
  have : (L - 4 + 2 ^ 64 - 4) % 2 ^ 64 = L - 8 := by omega
  rw [this]

/-- An extended header whose length field covers the header is accepted. -/
theorem readHdr_extended (t : Target) {s : mp4Stream} {E : Nat} {tag rest : List Byte}
    (h : s.data.drop s.pos = be32 1 ++ (be64 E ++ (tag ++ rest))) (htag : tag.length = 4)
    (h16 : 16 ≤ E) (h64 : E < 2 ^ 64) :
    readHdr t s = .ok (some ⟨E - 16, tag⟩, ⟨s.data, s.pos + 16⟩) := by
  have hd := drop_add_of_drop_eq h
  rw [length_be32] at hd
  have hd2 := @drop_add_of_drop_eq s.data (s.pos + 4) _ _ hd
  rw [length_be64] at hd2
  have hr64 : mp4Stream.readUint64 ⟨s.data, s.pos + 4⟩ = .ok (E, ⟨s.data, s.pos + 4 + 8⟩) :=
    readUint64_of_drop_eq (s := ⟨s.data, s.pos + 4⟩) hd h64
  have hr : mp4Stream.read ⟨s.data, s.pos + 4 + 8⟩ 4
      = .ok (tag, ⟨s.data, s.pos + 4 + 8 + 4⟩) :=
    read_of_drop_eq (s := ⟨s.data, s.pos + 4 + 8⟩) 4 hd2 htag (by decide)
  simp only [readHdr, readUint32_of_drop_eq h (by decide : 1 < 2 ^ 32), if_true, hr64, NAME_LEN]
  have h4 : ¬ ((E + 2 ^ 64 - 4 - 8) % 2 ^ 64 < 4) := by omega
  simp only [h4, if_false, hr]
  have : ((E + 2 ^ 64 - 4 - 8) % 2 ^ 64 + 2 ^ 64 - 4) % 2 ^ 64 = E - 16 := by omega
  rw [this]


theorem cstr_eq_of_length {a l : List Byte} (h : cstr a = l) (hl : a.length = l.length) :
    a = l := by
  have h1 := List.takeWhile_append_dropWhile (fun b : Byte => decide (b ≠ 0)) a
  have h2 : (List.takeWhile (fun b : Byte => decide (b ≠ 0)) a).length = l.length := by
    rw [← h]; rfl
  have h3 : (List.dropWhile (fun b : Byte => decide (b ≠ 0)) a).length = 0 := by
    have := congrArg List.length h1
    rw [List.length_append] at this
    omega
  rw [List.length_eq_zero] at h3
  rw [h3, List.append_nil] at h1
  rw [← h1]
  exact h

theorem strcmpEq_tag {a l : List Byte} (ha : a.length = 4) (hl : l.length = 4)
    (hc : cstr l = l) : strcmpEq a l = decide (a = l) := by
  unfold strcmpEq
  rw [hc]
  by_cases h : a = l
  · subst h; simp [hc]
  · have : cstr a ≠ l := fun hh => h (cstr_eq_of_length hh (by omega))
    simp [h, this]

theorem strcmpEq_ftyp {a : List Byte} (ha : a.length = 4) : strcmpEq a ftyp = decide (a = ftyp) :=
  strcmpEq_tag ha rfl (by decide)

theorem strcmpEq_moov {a : List Byte} (ha : a.length = 4) : strcmpEq a moov = decide (a = moov) :=
  strcmpEq_tag ha rfl (by decide)

theorem strcmpEq_mvhd {a : List Byte} (ha : a.length = 4) : strcmpEq a mvhd = decide (a = mvhd) :=
  strcmpEq_tag ha rfl (by decide)

theorem scanSwitch_skip {st : state_t} {hdr : hdr_t} (hst : st ≠ .found)
    (hlen : hdr.name.length = 4) (hne : hdr.name ≠ st.expects) :
    scanSwitch st hdr = (st, some hdr.len) := by
  cases st
  · have : hdr.name ≠ ftyp := hne
    simp [scanSwitch, strcmpEq_ftyp hlen, this]
  · have : hdr.name ≠ moov := hne
    simp [scanSwitch, strcmpEq_moov hlen, this]
  · have : hdr.name ≠ mvhd := hne
    simp [scanSwitch, strcmpEq_mvhd hlen, this]
  · exact absurd rfl hst

theorem seekpCur_forward (s : mp4Stream) (n : Nat) (h : n < 2 ^ 63) :
    s.seekpCur (toStreamoff n) = .ok ⟨s.data, s.pos + n⟩ := by
  have h1 : n % 2 ^ 64 = n := Nat.mod_eq_of_lt (by omega)
  have h2 : toStreamoff n = (n : Int) := by
    simp only [toStreamoff, h1, h, if_true]
  have h3 : ¬ ((s.pos : Int) + (n : Int) < 0) := by omega
  have h4 : ((s.pos : Int) + (n : Int)).toNat = s.pos + n := by omega
  simp only [mp4Stream.seekpCur, h2, h3, if_false, h4]

theorem length_header (b : Box) (h : b.tag.length = 4) : b.header.length = b.headerLen := by
  unfold Box.header Box.headerLen
  split <;> simp [length_be32, length_be64, h]

theorem length_encode (b : Box) (h : b.tag.length = 4) : b.encode.length = b.size := by
  simp [Box.encode, Box.size, length_header b h]

theorem headerLen_pos (b : Box) : 8 ≤ b.headerLen := by
  unfold Box.headerLen; split <;> omega

theorem size_le_of_drop_eq {data : List Byte} {p : Nat} {b : Box} {rest : List Byte}
    (h : data.drop p = b.encode ++ rest) (hb : b.tag.length = 4) :
    p + b.size ≤ data.length := by
  have h1 := congrArg List.length h
  rw [List.length_drop, List.length_append, length_encode b hb] at h1
  have := headerLen_pos b
  unfold Box.size at *
  omega

/-- The header of a well-formed box is accepted and gives its payload length. -/
theorem readHdr_box (t : Target) {s : mp4Stream} {b : Box} {rest : List Byte}
    (h : s.data.drop s.pos = b.encode ++ rest) (hb : b.wf) (hsize : s.data.length < 2 ^ 63) :
    readHdr t s = .ok (some ⟨b.payload.length, b.tag⟩, ⟨s.data, s.pos + b.headerLen⟩) := by
  have hle := size_le_of_drop_eq h hb.1
  cases hext : b.ext
  · have h32 := hb.2 hext
    have hh : s.data.drop s.pos = be32 b.size ++ (b.tag ++ (b.payload ++ rest)) := by
      rw [h]; simp [Box.encode, Box.header, hext]
    have := readHdr_standard t hh hb.1 (by simp [Box.size, Box.headerLen, hext]) h32
    rw [this]
    simp [Box.size, Box.headerLen, hext]
  · have hh : s.data.drop s.pos = be32 1 ++ (be64 b.size ++ (b.tag ++ (b.payload ++ rest))) := by
      rw [h]; simp [Box.encode, Box.header, hext]
    have := readHdr_extended t hh hb.1 (by simp [Box.size, Box.headerLen, hext]) (by omega)
    rw [this]
    simp [Box.size, Box.headerLen, hext]

/-! ## One iteration of the scan loop on a well-formed box -/

theorem not_eof_of_drop_eq {s : mp4Stream} {b : Box} {rest : List Byte}
    (h : s.data.drop s.pos = b.encode ++ rest) (hb : b.wf) : s.eof = false := by
  have hle := size_le_of_drop_eq h hb.1
  have := headerLen_pos b
  unfold Box.size at hle
  simp only [mp4Stream.eof, decide_eq_false_iff_not]
  omega

theorem drop_after_header {data : List Byte} {p : Nat} {b : Box} {rest : List Byte}
    (h : data.drop p = b.encode ++ rest) (hb : b.wf) :
    data.drop (p + b.headerLen) = b.payload ++ rest := by
  have h1 : data.drop p = b.header ++ (b.payload ++ rest) := by
    rw [h, Box.encode, List.append_assoc]
  have := drop_add_of_drop_eq h1
  rwa [length_header b hb.1] at this

theorem drop_after_box {data : List Byte} {p : Nat} {b : Box} {rest : List Byte}
    (h : data.drop p = b.encode ++ rest) (hb : b.wf) :
    data.drop (p + b.size) = rest := by
  have := drop_add_of_drop_eq h
  rwa [length_encode b hb.1] at this

/-- A box whose tag is not the awaited one is skipped whole. -/
theorem scanStep_skip (t : Target) {s : mp4Stream} {st : state_t} {b : Box} {rest : List Byte}
    (h : s.data.drop s.pos = b.encode ++ rest) (hb : b.wf) (hsize : s.data.length < 2 ^ 63)
    (hst : st ≠ .found) (hne : b.tag ≠ st.expects) :
    scanStep t s st = .inl (⟨s.data, s.pos + b.size⟩, st) := by
  have hle := size_le_of_drop_eq h hb.1
  have hsw : scanSwitch st ⟨b.payload.length, b.tag⟩ = (st, some b.payload.length) :=
    scanSwitch_skip hst hb.1 hne
  have hseek := seekpCur_forward ⟨s.data, s.pos + b.headerLen⟩ b.payload.length
    (by unfold Box.size at hle; omega)
  simp only [scanStep, readHdr_box t h hb hsize, hsw, hseek, Box.size, Nat.add_assoc]

/-- The `ftyp` box is skipped whole and the scanner goes on to look for `moov`. -/
theorem scanStep_ftyp (t : Target) {s : mp4Stream} {b : Box} {rest : List Byte}
    (h : s.data.drop s.pos = b.encode ++ rest) (hb : b.wf) (hsize : s.data.length < 2 ^ 63)
    (htag : b.tag = ftyp) :
    scanStep t s .findFtyp = .inl (⟨s.data, s.pos + b.size⟩, .findMoov) := by
  have hle := size_le_of_drop_eq h hb.1
  have hsw : scanSwitch .findFtyp ⟨b.payload.length, b.tag⟩
      = (.findMoov, some b.payload.length) := by
    simp [scanSwitch, htag, strcmpEq]
  have hseek := seekpCur_forward ⟨s.data, s.pos + b.headerLen⟩ b.payload.length
    (by unfold Box.size at hle; omega)
  simp only [scanStep, readHdr_box t h hb hsize, hsw, hseek, Box.size, Nat.add_assoc]

/-- The scanner descends into the `moov` box: only its header is consumed. -/
theorem scanStep_moov (t : Target) {s : mp4Stream} {b : Box} {rest : List Byte}
    (h : s.data.drop s.pos = b.encode ++ rest) (hb : b.wf) (hsize : s.data.length < 2 ^ 63)
    (htag : b.tag = moov) :
    scanStep t s .findMoov = .inl (⟨s.data, s.pos + b.headerLen⟩, .findMvhd) := by
  have hsw : scanSwitch .findMoov ⟨b.payload.length, b.tag⟩ = (.findMvhd, none) := by
    simp [scanSwitch, htag, strcmpEq]
  simp only [scanStep, readHdr_box t h hb hsize, hsw]

/-- On the `mvhd` box the scanner stops right after the header. -/
theorem scanStep_mvhd (t : Target) {s : mp4Stream} {b : Box} {rest : List Byte}
    (h : s.data.drop s.pos = b.encode ++ rest) (hb : b.wf) (hsize : s.data.length < 2 ^ 63)
    (htag : b.tag = mvhd) :
    scanStep t s .findMvhd = .inl (⟨s.data, s.pos + b.headerLen⟩, .found) := by
  have hsw : scanSwitch .findMvhd ⟨b.payload.length, b.tag⟩ = (.found, none) := by
    simp [scanSwitch, htag, strcmpEq]
  simp only [scanStep, readHdr_box t h hb hsize, hsw]

theorem scanLoop_succ_of_step (t : Target) (n : Nat) {s s1 : mp4Stream} {st st1 : state_t}
    (heof : s.eof = false) (hst : st ≠ .found) (hstep : scanStep t s st = .inl (s1, st1)) :
    scanLoop t (n + 1) s st = scanLoop t n s1 st1 := by
  simp [scanLoop, heof, hst, hstep]

theorem scanLoop_succ_of_eof (t : Target) (n : Nat) {s : mp4Stream} (st : state_t)
    (heof : s.eof = true) : scanLoop t (n + 1) s st = .exited s st := by
  simp [scanLoop, heof]

theorem scanLoop_succ_of_stop (t : Target) (n : Nat) {s : mp4Stream} {st : state_t}
    {r : ScanResult} (heof : s.eof = false) (hst : st ≠ .found)
    (hstep : scanStep t s st = .inr r) : scanLoop t (n + 1) s st = r := by
  simp [scanLoop, heof, hst, hstep]

theorem scanLoop_found (t : Target) (n : Nat) (s : mp4Stream) :
    scanLoop t (n + 1) s .found = .exited s .found := by
  simp [scanLoop]

theorem length_encodeBoxes_cons (b : Box) (bs : List Box) (hb : b.wf) :
    (encodeBoxes (b :: bs)).length = b.size + (encodeBoxes bs).length := by
  simp [encodeBoxes, length_encode b hb.1]

/-- A run of boxes none of which bears the awaited tag is skipped, one loop
iteration per box. -/
theorem scanLoop_skip_boxes (t : Target) (st : state_t) (hst : st ≠ .found) (data : List Byte)
    (hsize : data.length < 2 ^ 63) (n : Nat) :
    ∀ (bs : List Box) (p : Nat) (rest : List Byte),
      (∀ b ∈ bs, b.wf ∧ b.tag ≠ st.expects) →
      data.drop p = encodeBoxes bs ++ rest →
      scanLoop t (bs.length + n) ⟨data, p⟩ st
        = scanLoop t n ⟨data, p + (encodeBoxes bs).length⟩ st := by
  intro bs
  induction bs with
  | nil =>
    intro p rest _ _
    simp [encodeBoxes]
  | cons b bs ih =>
    intro p rest hall hdrop
    have hb := hall b (List.mem_cons_self b bs)
    have hd : (mp4Stream.mk data p).data.drop (mp4Stream.mk data p).pos
        = b.encode ++ (encodeBoxes bs ++ rest) := by
      simpa [encodeBoxes, List.append_assoc] using hdrop
    have hstep := scanStep_skip t hd hb.1 hsize hst hb.2
    have heof := not_eof_of_drop_eq hd hb.1
    have hnext := drop_after_box hd hb.1
    have : (b :: bs).length + n = (bs.length + n) + 1 := by simp; omega
    rw [this, scanLoop_succ_of_step t _ heof hst hstep]
    rw [ih (p + b.size) rest (fun c hc => hall c (List.mem_cons_of_mem b hc)) hnext]
    rw [length_encodeBoxes_cons b bs hb.1, Nat.add_assoc]


/-! ## C1: the scanner lands on the `mvhd` body -/

/-- C1. On a file made of well-formed boxes laid out as: top-level boxes other than
`ftyp`, an `ftyp` box, top-level boxes other than `moov`, a `moov` box whose payload
starts with boxes other than `mvhd` followed by an `mvhd` box, the scan loop ends
(given one test of the loop condition per box met, plus one) in state `found` with
the cursor on the first octet of the `mvhd` body: what lies from the cursor on is
the `mvhd` payload followed by the rest of the file.  The file is shorter than
`2 ^ 63` octets, the range of a seek offset. -/
theorem scan_reaches_mvhd_body (t : Target) (pre : List Box) (ftypB : Box) (mid : List Box)
    (moovB : Box) (kids : List Box) (mvhdB : Box) (moovTail fileTail : List Byte) (n : Nat)
    (hpre : ∀ b ∈ pre, b.wf ∧ b.tag ≠ ftyp)
    (hftyp : ftypB.wf ∧ ftypB.tag = ftyp)
    (hmid : ∀ b ∈ mid, b.wf ∧ b.tag ≠ moov)
    (hmoov : moovB.wf ∧ moovB.tag = moov)
    (hkids : ∀ b ∈ kids, b.wf ∧ b.tag ≠ mvhd)
    (hmvhd : mvhdB.wf ∧ mvhdB.tag = mvhd)
    (hpayload : moovB.payload = encodeBoxes kids ++ (mvhdB.encode ++ moovTail))
    (hsize : (layout pre ftypB mid moovB fileTail).length < 2 ^ 63)
    (hfuel : pre.length + mid.length + kids.length + 4 ≤ n) :
    scanLoop t n (mp4Stream.open (layout pre ftypB mid moovB fileTail)) .findFtyp
        = .exited ⟨layout pre ftypB mid moovB fileTail,
            mvhdBodyOffset pre ftypB mid moovB kids mvhdB⟩ .found
      ∧ (layout pre ftypB mid moovB fileTail).drop
            (mvhdBodyOffset pre ftypB mid moovB kids mvhdB)
          = mvhdB.payload ++ (moovTail ++ fileTail) := by
  obtain ⟨m, rfl⟩ : ∃ m, n = pre.length + (((mid.length + (((kids.length + ((m + 1) + 1))) + 1))) + 1) :=
    ⟨n - (pre.length + mid.length + kids.length + 4), by omega⟩
  generalize hfile : layout pre ftypB mid moovB fileTail = file at hsize ⊢
  -- the top-level boxes before `ftyp`
  have d0 : file.drop 0
      = encodeBoxes pre ++ (ftypB.encode ++ (encodeBoxes mid ++ (moovB.encode ++ fileTail))) := by
    rw [← hfile]; rfl
  have e0 := scanLoop_skip_boxes t .findFtyp (by decide) file hsize
    (((mid.length + (((kids.length + ((m + 1) + 1))) + 1))) + 1) pre 0 _ hpre d0
  have d1 := drop_add_of_drop_eq d0
  -- the `ftyp` box
  have s1 := scanStep_ftyp t (s := ⟨file, 0 + (encodeBoxes pre).length⟩) d1 hftyp.1 hsize hftyp.2
  have e1 := scanLoop_succ_of_step t (mid.length + (((kids.length + ((m + 1) + 1))) + 1))
    (not_eof_of_drop_eq (s := ⟨file, 0 + (encodeBoxes pre).length⟩) d1 hftyp.1) (by decide) s1
  have d2 := drop_after_box d1 hftyp.1
  -- the top-level boxes before `moov`
  have e2 := scanLoop_skip_boxes t .findMoov (by decide) file hsize
    (((kids.length + ((m + 1) + 1))) + 1) mid _ _ hmid d2
  have d3 := drop_add_of_drop_eq d2
  -- the `moov` header
  have s3 := scanStep_moov t (s := ⟨file, _⟩) d3 hmoov.1 hsize hmoov.2
  have e3 := scanLoop_succ_of_step t (kids.length + ((m + 1) + 1))
    (not_eof_of_drop_eq (s := ⟨file, _⟩) d3 hmoov.1) (by decide) s3
  have d4 := drop_after_header d3 hmoov.1
  rw [hpayload, List.append_assoc, List.append_assoc] at d4
  -- the children of `moov` before `mvhd`
  have e4 := scanLoop_skip_boxes t .findMvhd (by decide) file hsize ((m + 1) + 1) kids _ _ hkids d4
  have d5 := drop_add_of_drop_eq d4
  -- the `mvhd` header
  have s5 := scanStep_mvhd t (s := ⟨file, _⟩) d5 hmvhd.1 hsize hmvhd.2
  have e5 := scanLoop_succ_of_step t (m + 1)
    (not_eof_of_drop_eq (s := ⟨file, _⟩) d5 hmvhd.1) (by decide) s5
  have d6 := drop_after_header d5 hmvhd.1
  have hp : mvhdBodyOffset pre ftypB mid moovB kids mvhdB
      = 0 + (encodeBoxes pre).length + ftypB.size + (encodeBoxes mid).length + moovB.headerLen
        + (encodeBoxes kids).length + mvhdB.headerLen := by
    simp [mvhdBodyOffset]
  refine ⟨?_, ?_⟩
  · rw [mp4Stream.open, e0, e1, e2, e3, e4, e5, scanLoop_found, hp]
  · rw [hp]; exact d6

/-- C1 on a sample file: a `free` box, `ftyp`, then `moov` holding an extended-form
`udta` box and `mvhd`; the body of `mvhd` starts at offset 55. -/
theorem scan_reaches_mvhd_body_witness :
    scanLoop .x86 6 (mp4Stream.open sampleFile) .findFtyp = .exited ⟨sampleFile, 55⟩ .found
      ∧ sampleFile.drop 55 = [0, 0, 0, 0, 0, 0, 0, 9] ++ ([] ++ [5, 5]) :=
  scan_reaches_mvhd_body .x86 [⟨false, [102, 114, 101, 101], [7]⟩]
    ⟨false, ftyp, [105, 115, 111, 109]⟩ []
    ⟨false, moov, encodeBoxes [⟨true, [117, 100, 116, 97], [1, 2]⟩]
      ++ (Box.encode ⟨false, mvhd, [0, 0, 0, 0, 0, 0, 0, 9]⟩ ++ [])⟩
    [⟨true, [117, 100, 116, 97], [1, 2]⟩] ⟨false, mvhd, [0, 0, 0, 0, 0, 0, 0, 9]⟩ [] [5, 5] 6
    (by decide) (by decide) (by decide) (by decide) (by decide) (by decide) rfl (by decide)
    (by decide)

/-! ## C2, C3, C4: the payload length computed by `readHdr` -/

/-- C2, at the failing input.  A standard-form header whose length field is 0 is
accepted by `readHdr`, and the payload length returned is the wrapped value
`2 ^ w - 8` (`w` the width of `size_t`), not the integer `0 - 8`. -/
theorem readHdr_zero_length_wraps :
    ∀ t : Target,
      readHdr t ⟨be32 0 ++ ftyp, 0⟩
          = .ok (some ⟨2 ^ t.sizeBits - 8, ftyp⟩, ⟨be32 0 ++ ftyp, 8⟩)
        ∧ ((2 ^ t.sizeBits - 8 : Nat) : Int) ≠ (0 : Int) - 8 := by
  intro t
  cases t <;> decide

/-- C3 as stated fails: an extended-form header with length 100 is accepted and the
payload length returned is 84, not 100 - 12 = 88. -/
theorem readHdr_extended_not_minus_12 :
    readHdr .x64 ⟨be32 1 ++ be64 100 ++ ftyp, 0⟩
        = .ok (some ⟨84, ftyp⟩, ⟨be32 1 ++ be64 100 ++ ftyp, 16⟩)
      ∧ (84 : Int) ≠ 100 - 12 := by
  decide

/-- C3, amended.  For an extended-form header (32-bit length field 1, then the 64-bit
length `E`, then the tag) with `16 ≤ E`, `readHdr` accepts the header, leaves the
cursor after its 16 octets and returns the payload length `E - 16`: `E - 12` for
the two length fields, less the 4 octets of the tag. -/
theorem readHdr_extended_payload (t : Target) (s : mp4Stream) (E : Nat)
    (tag rest : List Byte)
    (h : s.data.drop s.pos = be32 1 ++ (be64 E ++ (tag ++ rest))) (htag : tag.length = 4)
    (h16 : 16 ≤ E) (h64 : E < 2 ^ 64) :
    readHdr t s = .ok (some ⟨E - 16, tag⟩, ⟨s.data, s.pos + 16⟩) :=
  readHdr_extended t h htag h16 h64

/-- C3 (amended) on an extended-form header of length 100 read at offset 1. -/
theorem readHdr_extended_payload_witness :
    readHdr .x86 ⟨[9] ++ (be32 1 ++ (be64 100 ++ (moov ++ [7, 7]))), 1⟩
      = .ok (some ⟨100 - 16, moov⟩, ⟨[9] ++ (be32 1 ++ (be64 100 ++ (moov ++ [7, 7]))), 1 + 16⟩) :=
  readHdr_extended_payload .x86 ⟨[9] ++ (be32 1 ++ (be64 100 ++ (moov ++ [7, 7]))), 1⟩ 100
    moov [7, 7] rfl rfl (by decide) (by decide)

/-- C4, at failing inputs.  `readHdr` does not report a malformed header for the
standard-form length 3 nor for the extended-form length 11, both too small to hold
their own header: it accepts them and returns a wrapped payload length.  A file
made of the first header alone never makes the run exit with -3. -/
theorem readHdr_accepts_short_lengths :
    ∀ t : Target,
      readHdr t ⟨be32 3 ++ ftyp, 0⟩
          = .ok (some ⟨2 ^ t.sizeBits - 5, ftyp⟩, ⟨be32 3 ++ ftyp, 8⟩)
        ∧ readHdr t ⟨be32 1 ++ be64 11 ++ ftyp, 0⟩
          = .ok (some ⟨2 ^ 64 - 5, ftyp⟩, ⟨be32 1 ++ be64 11 ++ ftyp, 16⟩)
        ∧ ∀ n : Nat, (run t n false none (be32 3 ++ ftyp)).outcome ≠ .exit (-3) := by
  intro t
  refine ⟨by cases t <;> decide, by cases t <;> decide, ?_⟩
  intro n
  match n with
  | 0 => cases t <;> decide
  | 1 => cases t <;> decide
  | n + 2 =>
    have key : ∀ (s1 : mp4Stream),
        scanStep t (mp4Stream.open (be32 3 ++ ftyp)) .findFtyp = .inl (s1, .findMoov) →
        scanLoop t (n + 1) s1 .findMoov = scanLoop t 1 s1 .findMoov →
        run t (n + 2) false none (be32 3 ++ ftyp) = run t 2 false none (be32 3 ++ ftyp) := by
      intro s1 hs1 hs2
      have e1 := scanLoop_succ_of_step t (n + 1) (by decide) (by decide) hs1
      have e2 := scanLoop_succ_of_step t 1 (by decide) (by decide) hs1
      simp only [run, e1, e2, hs2]
    cases t
    · rw [key ⟨be32 3 ++ ftyp, 4294967299⟩ (by decide)
        (by rw [scanLoop_succ_of_eof _ n _ (by decide), scanLoop_succ_of_eof _ 0 _ (by decide)])]
      decide
    · have hstop : scanStep .x64 ⟨be32 3 ++ ftyp, 3⟩ .findMoov
          = .inr (.ioError .truncated ⟨be32 3 ++ ftyp, 3⟩) := by decide
      rw [key ⟨be32 3 ++ ftyp, 3⟩ (by decide)
        (by rw [scanLoop_succ_of_stop _ n (by decide) (by decide) hstop,
              scanLoop_succ_of_stop _ 0 (by decide) (by decide) hstop])]
      decide

/-! ## C5: termination of the scan loop -/

/-- C5, at the failing input.  On the 16-octet file made of one extended-form header
whose 64-bit length is 0, one iteration of the scan loop brings the cursor back to
offset 0 in the same state, so the loop is still running after any number of
iterations; the same holds, when `size_t` has 64 bits, for the 8-octet file made
of one standard-form header of length 0. -/
theorem scanLoop_never_ends :
    (∀ (t : Target) (n : Nat),
        scanLoop t n (mp4Stream.open zeroExtendedFile) .findFtyp
          = .running (mp4Stream.open zeroExtendedFile) .findFtyp)
      ∧ ∀ n : Nat,
        scanLoop .x64 n (mp4Stream.open zeroStandardFile) .findFtyp
          = .running (mp4Stream.open zeroStandardFile) .findFtyp := by
  constructor
  · intro t n
    induction n with
    | zero => rfl
    | succ n ih =>
      have hstep : scanStep t (mp4Stream.open zeroExtendedFile) .findFtyp
          = .inl (mp4Stream.open zeroExtendedFile, .findFtyp) := by
        cases t <;> decide
      rw [scanLoop_succ_of_step t n (by decide) (by decide) hstep]
      exact ih
  · intro n
    induction n with
    | zero => rfl
    | succ n ih =>
      have hstep : scanStep .x64 (mp4Stream.open zeroStandardFile) .findFtyp
          = .inl (mp4Stream.open zeroStandardFile, .findFtyp) := by
        decide
      rw [scanLoop_succ_of_step .x64 n (by decide) (by decide) hstep]
      exact ih

/-! ## C6: the two epoch conversions -/

/-- C6. On 64-bit unsigned values `time1904to1970` and `time1970to1904` are inverse
to each other, in both orders, wrap-around included. -/
theorem time_conversions_inverse (t : Nat) (h : t < 2 ^ 64) :
    time1904to1970 (time1970to1904 t) = t ∧ time1970to1904 (time1904to1970 t) = t := by
  simp only [time1904to1970, time1970to1904, diff]
  omega

/-- C6 at the largest 64-bit value, where the sum wraps, and at 5, where the
difference wraps. -/
theorem time_conversions_inverse_witness :
    18446744073709551615 < 2 ^ 64
      ∧ time1904to1970 (time1970to1904 18446744073709551615) = 18446744073709551615
      ∧ time1970to1904 (time1904to1970 5) = 5 :=
  ⟨by decide, (time_conversions_inverse 18446744073709551615 (by decide)).1,
    (time_conversions_inverse 5 (by decide)).2⟩

/-! ## The scan never writes -/

theorem read_data {s s1 : mp4Stream} {n : Nat} {bs : List Byte}
    (h : s.read n = .ok (bs, s1)) : s1.data = s.data := by
  unfold mp4Stream.read at h
  split at h
  · cases h; rfl
  · cases h

theorem readUint32_data {s s1 : mp4Stream} {v : Nat}
    (h : s.readUint32 = .ok (v, s1)) : s1.data = s.data := by
  unfold mp4Stream.readUint32 at h
  split at h
  · cases h
  · next bs s2 hr => cases h; exact read_data hr

theorem readUint64_data {s s1 : mp4Stream} {v : Nat}
    (h : s.readUint64 = .ok (v, s1)) : s1.data = s.data := by
  unfold mp4Stream.readUint64 at h
  split at h
  · cases h
  · next bs s2 hr => cases h; exact read_data hr

theorem seekpCur_data {s s1 : mp4Stream} {off : Int}
    (h : s.seekpCur off = .ok s1) : s1.data = s.data := by
  unfold mp4Stream.seekpCur at h
  split at h
  · cases h
  · cases h; rfl

theorem readHdr_data (t : Target) {s s1 : mp4Stream} {r : Option hdr_t}
    (h : readHdr t s = .ok (r, s1)) : s1.data = s.data := by
  unfold readHdr at h
  cases h32 : s.readUint32 with
  | error e => rw [h32] at h; cases h
  | ok x =>
    obtain ⟨len, sa⟩ := x
    have ha := readUint32_data h32
    rw [h32] at h
    simp only at h
    by_cases h1 : len = 1
    · simp only [h1, if_true] at h
      cases h64 : sa.readUint64 with
      | error e => rw [h64] at h; cases h
      | ok y =>
        obtain ⟨ext, sb⟩ := y
        have hb := readUint64_data h64
        rw [h64] at h
        simp only at h
        split at h
        · cases h; rw [hb, ha]
        · cases hr : sb.read NAME_LEN with
          | error e => rw [hr] at h; cases h
          | ok z =>
            obtain ⟨name, sc⟩ := z
            rw [hr] at h
            cases h
            rw [read_data hr, hb, ha]
    · simp only [h1, if_false] at h
      split at h
      · cases h; exact ha
      · cases hr : sa.read NAME_LEN with
        | error e => rw [hr] at h; cases h
        | ok z =>
          obtain ⟨name, sc⟩ := z
          rw [hr] at h
          cases h
          rw [read_data hr, ha]

theorem scanStep_data_inl (t : Target) {s s1 : mp4Stream} {st st1 : state_t}
    (h : scanStep t s st = .inl (s1, st1)) : s1.data = s.data := by
  unfold scanStep at h
  cases hh : readHdr t s with
  | error e => rw [hh] at h; cases h
  | ok x =>
    obtain ⟨r, sa⟩ := x
    have ha := readHdr_data t hh
    rw [hh] at h
    cases r with
    | none => cases h
    | some hdr =>
      simp only at h
      cases hsw : scanSwitch st hdr with
      | mk st2 o =>
        rw [hsw] at h
        cases o with
        | none => cases h; exact ha
        | some off =>
          simp only at h
          cases hs : sa.seekpCur (toStreamoff off) with
          | error e => rw [hs] at h; cases h
          | ok sb => rw [hs] at h; cases h; rw [seekpCur_data hs, ha]

theorem scanStep_data_inr (t : Target) {s : mp4Stream} {st : state_t} {r : ScanResult}
    (h : scanStep t s st = .inr r) : r.stream.data = s.data := by
  unfold scanStep at h
  cases hh : readHdr t s with
  | error e => rw [hh] at h; cases h; rfl
  | ok x =>
    obtain ⟨r, sa⟩ := x
    have ha := readHdr_data t hh
    rw [hh] at h
    cases r with
    | none => cases h; exact ha
    | some hdr =>
      simp only at h
      cases hsw : scanSwitch st hdr with
      | mk st2 o =>
        rw [hsw] at h
        cases o with
        | none => cases h
        | some off =>
          simp only at h
          cases hs : sa.seekpCur (toStreamoff off) with
          | error e => rw [hs] at h; cases h; exact ha
          | ok sb => rw [hs] at h; cases h

/-- Whatever the scan loop does, the content of the file is the one it started
with. -/
theorem scanLoop_data (t : Target) (n : Nat) :
    ∀ (s : mp4Stream) (st : state_t), (scanLoop t n s st).stream.data = s.data := by
  induction n with
  | zero => intro s st; rfl
  | succ n ih =>
    intro s st
    unfold scanLoop
    split
    · split
      · next s1 st1 h => rw [ih s1 st1]; exact scanStep_data_inl t h
      · next r h => exact scanStep_data_inr t h
    · rfl

theorem patch_file_of_no_write (dryrun : Bool) (date : Option Nat) (s : mp4Stream)
    (h : date = none ∨ dryrun = true) : (patch dryrun date s).file = s.data := by
  unfold patch
  split
  · rfl
  · split
    · rfl
    · next version s1 h8 =>
      have h1 : s1.data = s.data := by
        unfold mp4Stream.readUint8 at h8
        split at h8
        · cases h8
        · next bs s2 hr => cases h8; exact read_data hr
      have h2 : (s1.ignore 3).data = s.data := h1
      rcases h with h | h
      · subst h
        simp only
        split
        · exact h2
        · next creationTime s3 hr =>
          simp only
          split at hr
          · rw [readUint64_data hr, h2]
          · rw [readUint32_data hr, h2]
      · subst h
        cases date with
        | none =>
          simp only
          split
          · exact h2
          · next creationTime s3 hr =>
            simp only
            split at hr
            · rw [readUint64_data hr, h2]
            · rw [readUint32_data hr, h2]
        | some d => simp only [if_true]; exact h2

theorem run_file_of_no_write (t : Target) (n : Nat) (dryrun : Bool) (date : Option Nat)
    (file : List Byte) (h : date = none ∨ dryrun = true) :
    (run t n dryrun date file).file = file := by
  have hd := scanLoop_data t n (mp4Stream.open file) .findFtyp
  unfold run
  split
  · next s st hs =>
    rw [hs] at hd
    rw [patch_file_of_no_write dryrun date s h]
    exact hd
  · next s hs => rw [hs] at hd; exact hd
  · next e s hs => rw [hs] at hd; exact hd
  · next s st hs => rw [hs] at hd; exact hd

/-! ## The patch driver in write mode -/

/-- Overwriting octets in place keeps the length and every octet outside the range
written. -/
theorem overwrite_frame (file bs : List Byte) (a : Nat) (h : a + bs.length ≤ file.length) :
    (file.take a ++ bs ++ file.drop (a + bs.length)).length = file.length
      ∧ (∀ i, i < a ∨ a + bs.length ≤ i →
          (file.take a ++ bs ++ file.drop (a + bs.length))[i]? = file[i]?)
      ∧ ((file.take a ++ bs ++ file.drop (a + bs.length)).drop a).take bs.length = bs := by
  have hta : (file.take a).length = a := by rw [List.length_take]; omega
  refine ⟨?_, ?_, ?_⟩
  · simp only [List.length_append, List.length_take, List.length_drop]; omega
  · intro i hi
    rcases hi with hi | hi
    · rw [List.append_assoc, List.getElem?_append_left (by omega), List.getElem?_take_of_lt hi]
    · rw [List.getElem?_append_right (by simp only [List.length_append, hta]; omega)]
      rw [List.getElem?_drop]
      simp only [List.length_append, hta]
      congr 1
      omega
  · rw [List.append_assoc]
    have := List.drop_left (file.take a) (bs ++ file.drop (a + bs.length))
    rw [hta] at this
    rw [this, List.take_left]

theorem readUint8_at {s : mp4Stream} {v : Byte} (hv : s.data[s.pos]? = some v) :
    s.readUint8 = .ok (v.val, ⟨s.data, s.pos + 1⟩) := by
  have hlt : s.pos < s.data.length := by
    by_contra hc
    rw [List.getElem?_eq_none (by omega)] at hv
    cases hv
  have hget : s.data[s.pos] = v := by
    have := List.getElem?_eq_getElem hlt
    rw [this] at hv
    exact Option.some.inj hv
  have hle : s.pos + 1 ≤ s.data.length := hlt
  simp [mp4Stream.readUint8, mp4Stream.read, hle, List.take_one_drop_eq_of_lt_length hlt,
    hget, beDecode]

/-- Write mode on a version octet other than 1: four octets are read, the cursor
goes back by four and the low 32 bits of the new time are written. -/
theorem patch_write32 (s : mp4Stream) (d : Nat) (v : Byte) (hv : s.data[s.pos]? = some v)
    (hne : v ≠ 1) (hlen : s.pos + 8 ≤ s.data.length) :
    patch false (some d) s
      = ⟨.exit 0, s.data.take (s.pos + 4) ++ be32 (d % 2 ^ 32) ++
          s.data.drop (s.pos + 4 + (be32 (d % 2 ^ 32)).length), none⟩ := by
  have heof : s.eof = false := by
    simp only [mp4Stream.eof, decide_eq_false_iff_not]; omega
  have hv1 : ¬ (v.val = 1) := fun h => hne (Fin.ext h)
  have hig : (mp4Stream.mk s.data (s.pos + 1)).ignore 3 = ⟨s.data, s.pos + 4⟩ := by
    simp only [mp4Stream.ignore]
    congr 1
    omega
  have hrd : ∃ x, mp4Stream.readUint32 ⟨s.data, s.pos + 4⟩ = .ok (x, ⟨s.data, s.pos + 4 + 4⟩) := by
    have hle : s.pos + 4 + 4 ≤ s.data.length := by omega
    simp [mp4Stream.readUint32, mp4Stream.read, hle]
  obtain ⟨x, hx⟩ := hrd
  have hsk : mp4Stream.seekpCur ⟨s.data, s.pos + 4 + 4⟩ (-4) = .ok ⟨s.data, s.pos + 4⟩ := by
    have h1 : ¬ (((s.pos + 4 + 4 : Nat) : Int) + (-4) < 0) := by omega
    have h2 : (((s.pos + 4 + 4 : Nat) : Int) + (-4)).toNat = s.pos + 4 := by omega
    simp only [mp4Stream.seekpCur, h1, if_false, h2]
  have hwr : mp4Stream.writeUint32 ⟨s.data, s.pos + 4⟩ (d % 2 ^ 32)
      = .ok ⟨s.data.take (s.pos + 4) ++ be32 (d % 2 ^ 32) ++
          s.data.drop (s.pos + 4 + (be32 (d % 2 ^ 32)).length),
          s.pos + 4 + (be32 (d % 2 ^ 32)).length⟩ := by
    have hle : s.pos + 4 + (be32 (d % 2 ^ 32)).length ≤ s.data.length := by
      rw [length_be32]; omega
    simp only [mp4Stream.writeUint32, mp4Stream.write, hle, if_true]
  simp only [patch, heof, readUint8_at hv, hig, hv1, hx, hsk, hwr]
  simp

/-- Write mode on the version octet 1: the eight octets after the reserved ones
are overwritten with the new time. -/
theorem patch_write64 (s : mp4Stream) (d : Nat) (hv : s.data[s.pos]? = some 1)
    (hlen : s.pos + 12 ≤ s.data.length) :
    patch false (some d) s
      = ⟨.exit 0, s.data.take (s.pos + 4) ++ be64 d ++
          s.data.drop (s.pos + 4 + (be64 d).length), none⟩ := by
  have heof : s.eof = false := by
    simp only [mp4Stream.eof, decide_eq_false_iff_not]; omega
  have hig : (mp4Stream.mk s.data (s.pos + 1)).ignore 3 = ⟨s.data, s.pos + 4⟩ := by
    simp only [mp4Stream.ignore]
    congr 1
    omega
  have hwr : mp4Stream.writeUint64 ⟨s.data, s.pos + 4⟩ d
      = .ok ⟨s.data.take (s.pos + 4) ++ be64 d ++ s.data.drop (s.pos + 4 + (be64 d).length),
          s.pos + 4 + (be64 d).length⟩ := by
    have hle : s.pos + 4 + (be64 d).length ≤ s.data.length := by
      rw [length_be64]; omega
    simp only [mp4Stream.writeUint64, mp4Stream.write, hle, if_true]
  simp only [patch, heof, readUint8_at hv, hig, hwr]
  simp

theorem be32_mod (d : Nat) : be32 (d % 2 ^ 32) = be32 d := by
  simp only [be32, toByte, List.cons.injEq, Fin.mk.injEq, and_true]
  omega

theorem be64_mod (d : Nat) : be64 (d % 2 ^ 64) = be64 d := by
  simp only [be64, toByte, List.cons.injEq, Fin.mk.injEq, and_true]
  omega

/-- The effect on the file of a write-mode run that found the `mvhd` body at `p`
with a version octet other than 1. -/
theorem run_write32 (t : Target) (n : Nat) (file : List Byte) (p d : Nat) (v : Byte)
    (hscan : scanLoop t n (mp4Stream.open file) .findFtyp = .exited ⟨file, p⟩ .found)
    (hver : file[p]? = some v) (hne : v ≠ 1) (hlen : p + 8 ≤ file.length) :
    (run t n false (some d) file).outcome = .exit 0
      ∧ (run t n false (some d) file).file.length = file.length
      ∧ (∀ i, i < p + 4 ∨ p + 8 ≤ i → (run t n false (some d) file).file[i]? = file[i]?)
      ∧ ((run t n false (some d) file).file.drop (p + 4)).take 4 = be32 (d % 2 ^ 32)
      ∧ beDecode (((run t n false (some d) file).file.drop (p + 4)).take 4) = d % 2 ^ 32 := by
  have hrun : run t n false (some d) file
      = ⟨.exit 0, file.take (p + 4) ++ be32 (d % 2 ^ 32) ++
          file.drop (p + 4 + (be32 (d % 2 ^ 32)).length), none⟩ := by
    simp only [run, hscan]
    exact patch_write32 ⟨file, p⟩ d v hver hne hlen
  have hfr := overwrite_frame file (be32 (d % 2 ^ 32)) (p + 4) (by rw [length_be32]; omega)
  rw [hrun]
  simp only [length_be32] at hfr ⊢
  refine ⟨trivial, hfr.1, fun i hi => hfr.2.1 i (by omega), hfr.2.2, ?_⟩
  rw [hfr.2.2]
  exact beDecode_be32 _ (Nat.mod_lt _ (by decide))

/-! ## C7, C8: the frame of a write -/

/-- With `--file` and a `--create` text that parses to a non-zero value, and without
`--dry-run`, `main` is the run in write mode. -/
theorem main_write_mode (t : Target) (string2time1904 : String → Nat) (n : Nat)
    (argv : List String) (file : List Byte) (fname text : String)
    (hfile : getCmdOption argv "--file" = some fname)
    (hdate : getCmdOption argv "--create" = some text)
    (hdry : cmdOptionExists argv "--dry-run" = false)
    (hd : string2time1904 text % 2 ^ 64 ≠ 0) :
    main t string2time1904 n argv file
      = run t n false (some (string2time1904 text % 2 ^ 64)) file := by
  simp only [main, hfile, hdate, hdry, hd, if_false]

/-- C8. Version-1 write.  When the scan ends in `found` with the cursor at `p`, the
version octet at `p` is 1 and at least 12 octets follow `p`, a write-mode run with
the new time `d` exits with 0 and leaves a file of the same length, equal to the
original at every offset outside `[p+4, p+12)` (so the version and the 3 reserved
octets are kept); the octets `[p+4, p+12)` are the big-endian form of the 64-bit
value `d`. -/
theorem write_version1_frame (t : Target) (n : Nat) (file : List Byte) (p d : Nat)
    (hscan : scanLoop t n (mp4Stream.open file) .findFtyp = .exited ⟨file, p⟩ .found)
    (hver : file[p]? = some 1) (hlen : p + 12 ≤ file.length) :
    (run t n false (some d) file).outcome = .exit 0
      ∧ (run t n false (some d) file).file.length = file.length
      ∧ (∀ i, i < p + 4 ∨ p + 12 ≤ i → (run t n false (some d) file).file[i]? = file[i]?)
      ∧ ((run t n false (some d) file).file.drop (p + 4)).take 8 = be64 d
      ∧ beDecode (((run t n false (some d) file).file.drop (p + 4)).take 8) = d % 2 ^ 64 := by
  have hrun : run t n false (some d) file
      = ⟨.exit 0, file.take (p + 4) ++ be64 d ++ file.drop (p + 4 + (be64 d).length), none⟩ := by
    simp only [run, hscan]
    exact patch_write64 ⟨file, p⟩ d hver hlen
  have hfr := overwrite_frame file (be64 d) (p + 4) (by rw [length_be64]; omega)
  rw [hrun]
  simp only [length_be64] at hfr ⊢
  refine ⟨trivial, hfr.1, fun i hi => hfr.2.1 i (by omega), hfr.2.2, ?_⟩
  rw [hfr.2.2, ← be64_mod]
  exact beDecode_be64 _ (Nat.mod_lt _ (by decide))

/-- C8 on the minimal file with version octet 1. -/
theorem write_version1_frame_witness :
    (run .x86 10 false (some 3517594740) version1File).outcome = .exit 0
      ∧ (run .x86 10 false (some 3517594740) version1File).file.length = version1File.length
      ∧ ((run .x86 10 false (some 3517594740) version1File).file.drop (28 + 4)).take 8
          = be64 3517594740 :=
  have h := write_version1_frame .x86 10 version1File 28 3517594740
    (by decide) (by decide) (by decide)
  ⟨h.1, h.2.1, h.2.2.2.1⟩

/-! ## C9: read mode and dry-run leave the file alone -/

theorem getCmdOption_of_not_mem (option : String) :
    ∀ argv : List String, option ∉ argv → getCmdOption argv option = none := by
  intro argv
  induction argv with
  | nil => intro _; rfl
  | cons a rest ih =>
    intro h
    have h1 : a ≠ option := fun e => h (e ▸ List.mem_cons_self a rest)
    have h2 : option ∉ rest := fun m => h (List.mem_cons_of_mem a m)
    simp only [getCmdOption, h1, if_false]
    exact ih h2

/-- C9. For every file, every argument list in which `--create` is absent or
`--dry-run` is present, every date parser and every number of loop iterations
granted, the content of the file after the run is the content before it, whatever
the outcome. -/
theorem main_no_write (t : Target) (string2time1904 : String → Nat) (n : Nat)
    (argv : List String) (file : List Byte)
    (h : "--create" ∉ argv ∨ "--dry-run" ∈ argv) :
    (main t string2time1904 n argv file).file = file := by
  have h' : getCmdOption argv "--create" = none ∨ cmdOptionExists argv "--dry-run" = true := by
    rcases h with h | h
    · exact Or.inl (getCmdOption_of_not_mem _ argv h)
    · exact Or.inr (by simpa [cmdOptionExists] using h)
  unfold main
  simp only
  split
  · rfl
  · split
    · next text hdate =>
      split
      · rfl
      · apply run_file_of_no_write
        rcases h' with h | h
        · rw [h] at hdate; cases hdate
        · exact Or.inr h
    · exact run_file_of_no_write t n _ none file (Or.inl rfl)

/-- C9 on the minimal file, once with `--dry-run` and once without `--create`. -/
theorem main_no_write_witness :
    (main .x64 (fun _ => 3517594740) 10
        ["mp4date", "--create", "2015-06-19T21:39:00", "--dry-run", "--file", "a.mp4"]
        minimalFile).file = minimalFile
      ∧ (main .x64 (fun _ => 3517594740) 10 ["mp4date", "--file", "a.mp4"]
        minimalFile).file = minimalFile :=
  ⟨main_no_write .x64 (fun _ => 3517594740) 10
      ["mp4date", "--create", "2015-06-19T21:39:00", "--dry-run", "--file", "a.mp4"]
      minimalFile (Or.inr (by decide)),
    main_no_write .x64 (fun _ => 3517594740) 10 ["mp4date", "--file", "a.mp4"]
      minimalFile (Or.inl (by decide))⟩

/-! ## C10: version octets other than 0 and 1 -/

/-- C10 as stated fails: on the minimal file with the version octet set to 2 the
scan ends in `found` at offset 28 and a write-mode run overwrites the octets
`[32, 36)`, so the file is changed. -/
theorem version2_write_changes_file :
    scanLoop .x64 10 (mp4Stream.open version2File) .findFtyp
        = .exited ⟨version2File, 28⟩ .found
      ∧ version2File[28]? = some 2
      ∧ (run .x64 10 false (some 3517594740) version2File).outcome = .exit 0
      ∧ (run .x64 10 false (some 3517594740) version2File).file ≠ version2File
      ∧ ((run .x64 10 false (some 3517594740) version2File).file.drop 32).take 4
          = be32 3517594740 := by
  decide

/-- C10, amended.  When the version octet at the `mvhd` body offset `p` is neither 0
nor 1 and at least 8 octets follow `p`, the patch driver takes the creation time to
be 32 bits wide: a write-mode run with the new time `d` exits with 0 and leaves a
file of the same length, equal to the original outside `[p+4, p+8)`, whose octets
`[p+4, p+8)` are the big-endian form of `d mod 2^32`. -/
theorem write_other_version_frame (t : Target) (n : Nat) (file : List Byte) (p d : Nat)
    (v : Byte)
    (hscan : scanLoop t n (mp4Stream.open file) .findFtyp = .exited ⟨file, p⟩ .found)
    (hver : file[p]? = some v) (_h0 : v ≠ 0) (h1 : v ≠ 1) (hlen : p + 8 ≤ file.length) :
    (run t n false (some d) file).outcome = .exit 0
      ∧ (run t n false (some d) file).file.length = file.length
      ∧ (∀ i, i < p + 4 ∨ p + 8 ≤ i → (run t n false (some d) file).file[i]? = file[i]?)
      ∧ ((run t n false (some d) file).file.drop (p + 4)).take 4 = be32 (d % 2 ^ 32)
      ∧ beDecode (((run t n false (some d) file).file.drop (p + 4)).take 4) = d % 2 ^ 32 :=
  run_write32 t n file p d v hscan hver h1 hlen

/-- C10 (amended) on the minimal file with version octet 2 and a new time above
`2 ^ 32`. -/
theorem write_other_version_frame_witness :
    (run .x86 10 false (some 4294967301) version2File).outcome = .exit 0
      ∧ (run .x86 10 false (some 4294967301) version2File).file.length = version2File.length
      ∧ beDecode (((run .x86 10 false (some 4294967301) version2File).file.drop (28 + 4)).take 4)
          = 4294967301 % 2 ^ 32 :=
  have h := write_other_version_frame .x86 10 version2File 28 4294967301 2
    (by decide) (by decide) (by decide) (by decide) (by decide)
  ⟨h.1, h.2.1, h.2.2.2.2⟩

/-! ## C11: no `ftyp` before the end of the file -/

theorem scanStep_inr_not_exited (t : Target) {s s1 : mp4Stream} {st st1 : state_t}
    (h : scanStep t s st = .inr (.exited s1 st1)) : False := by
  unfold scanStep at h
  cases hh : readHdr t s with
  | error e => rw [hh] at h; cases h
  | ok x =>
    obtain ⟨r, sa⟩ := x
    rw [hh] at h
    cases r with
    | none => cases h
    | some hdr =>
      simp only at h
      cases hsw : scanSwitch st hdr with
      | mk st2 o =>
        rw [hsw] at h
        cases o with
        | none => cases h
        | some off =>
          simp only at h
          cases hs : sa.seekpCur (toStreamoff off) with
          | error e => rw [hs] at h; cases h
          | ok sb => rw [hs] at h; cases h

/-- The loop is left in a state other than `found` only at the end of the file. -/
theorem scanLoop_exited_eof (t : Target) (n : Nat) :
    ∀ (s : mp4Stream) (st : state_t) (s1 : mp4Stream) (st1 : state_t),
      scanLoop t n s st = .exited s1 st1 → st1 ≠ .found → s1.eof = true := by
  induction n with
  | zero => intro s st s1 st1 h; cases h
  | succ n ih =>
    intro s st s1 st1 h hne
    unfold scanLoop at h
    split at h
    · split at h
      · next s2 st2 hstep => exact ih s2 st2 s1 st1 h hne
      · next r hstep => subst h; exact absurd hstep (fun hh => scanStep_inr_not_exited t hh)
    · next hc =>
      cases h
      cases heof : s.eof with
      | true => rfl
      | false =>
        exfalso
        apply hc
        simp [heof, hne]

theorem patch_at_eof (dryrun : Bool) (date : Option Nat) (s : mp4Stream) (h : s.eof = true) :
    patch dryrun date s = ⟨.exit (-4), s.data, none⟩ := by
  simp [patch, h]

/-- When the scan loop is left at the end of the file still in state `findFtyp`, the
run returns -4, prints nothing and leaves the file as it was, in every mode. -/
theorem run_of_exit_in_findFtyp (t : Target) (n : Nat) (dryrun : Bool) (date : Option Nat)
    (file : List Byte) (s : mp4Stream)
    (h : scanLoop t n (mp4Stream.open file) .findFtyp = .exited s .findFtyp) :
    run t n dryrun date file = ⟨.exit (-4), file, none⟩ := by
  have heof := scanLoop_exited_eof t n _ _ _ _ h (by decide)
  have hdata := scanLoop_data t n (mp4Stream.open file) .findFtyp
  rw [h] at hdata
  simp only [run, h, patch_at_eof dryrun date s heof]
  exact congrArg (fun d => RunResult.mk (.exit (-4)) d none) hdata

/-- C11 as stated fails: the eight-octet file `00 00 00 05 'free'` holds no box tagged
`ftyp`, yet the run returns -3, not -4, in read mode and in write mode alike: the
length 5 is reported malformed by `readHdr` before the end of the file is reached.
The file is left as it was. -/
theorem short_box_exits_malformed :
    run .x86 10 false none shortBoxFile = ⟨.exit (-3), shortBoxFile, none⟩
      ∧ run .x86 10 false (some 5) shortBoxFile = ⟨.exit (-3), shortBoxFile, none⟩
      ∧ run .x64 10 false none shortBoxFile = ⟨.exit (-3), shortBoxFile, none⟩
      ∧ run .x64 10 false (some 5) shortBoxFile = ⟨.exit (-3), shortBoxFile, none⟩
      ∧ readHdr .x86 (mp4Stream.open shortBoxFile) = .ok (none, ⟨shortBoxFile, 4⟩)
      ∧ readHdr .x64 (mp4Stream.open shortBoxFile) = .ok (none, ⟨shortBoxFile, 4⟩) := by
  decide

/-- C11, amended.  For every file made of well-formed boxes (each encoded length
covers its own header and lies inside the file) none of which bears the tag `ftyp`,
the run, given one test of the loop condition per box plus one, returns -4, prints
nothing and leaves the file as it was, in read mode, in dry-run and in write mode
alike.  The file is shorter than `2 ^ 63` octets, the range of a seek offset. -/
theorem no_ftyp_boxes_not_found (t : Target) (n : Nat) (dryrun : Bool) (date : Option Nat)
    (bs : List Box) (hbs : ∀ b ∈ bs, b.wf ∧ b.tag ≠ ftyp)
    (hsize : (encodeBoxes bs).length < 2 ^ 63) (hn : bs.length + 1 ≤ n) :
    run t n dryrun date (encodeBoxes bs) = ⟨.exit (-4), encodeBoxes bs, none⟩ := by
  obtain ⟨m, rfl⟩ : ∃ m, n = bs.length + (m + 1) := ⟨n - (bs.length + 1), by omega⟩
  have hd : (encodeBoxes bs).drop 0 = encodeBoxes bs ++ [] := by simp
  have e0 := scanLoop_skip_boxes t .findFtyp (by decide) (encodeBoxes bs) hsize (m + 1) bs 0 []
    hbs hd
  have heof : (mp4Stream.mk (encodeBoxes bs) (0 + (encodeBoxes bs).length)).eof = true := by
    simp [mp4Stream.eof]
  rw [scanLoop_succ_of_eof t m .findFtyp heof] at e0
  exact run_of_exit_in_findFtyp t _ dryrun date (encodeBoxes bs) _ e0

/-- C11 (amended) on a file of two boxes, `free` and `skip`, in write mode. -/
theorem no_ftyp_boxes_not_found_witness :
    run .x64 3 false (some 5)
        (encodeBoxes [⟨false, [102, 114, 101, 101], [1, 2, 3]⟩, ⟨true, [115, 107, 105, 112], []⟩])
      = ⟨.exit (-4),
        encodeBoxes [⟨false, [102, 114, 101, 101], [1, 2, 3]⟩, ⟨true, [115, 107, 105, 112], []⟩],
        none⟩ :=
  no_ftyp_boxes_not_found .x64 3 false (some 5)
    [⟨false, [102, 114, 101, 101], [1, 2, 3]⟩, ⟨true, [115, 107, 105, 112], []⟩]
    (by decide) (by decide) (by decide)

/-! ## C15: the scanner state only moves forward, one step at a time -/

theorem read_length {s s1 : mp4Stream} {n : Nat} {bs : List Byte}
    (h : s.read n = .ok (bs, s1)) : bs.length = n := by
  unfold mp4Stream.read at h
  split at h
  · next hle =>
    cases h
    rw [List.length_take, List.length_drop]
    omega
  · cases h

/-- The tag of an accepted header has four octets. -/
theorem readHdr_name_length (t : Target) {s s1 : mp4Stream} {hdr : hdr_t}
    (h : readHdr t s = .ok (some hdr, s1)) : hdr.name.length = 4 := by
  unfold readHdr at h
  cases h32 : s.readUint32 with
  | error e => rw [h32] at h; cases h
  | ok x =>
    obtain ⟨len, sa⟩ := x
    rw [h32] at h
    simp only at h
    by_cases h1 : len = 1
    · simp only [h1, if_true] at h
      cases h64 : sa.readUint64 with
      | error e => rw [h64] at h; cases h
      | ok y =>
        obtain ⟨ext, sb⟩ := y
        rw [h64] at h
        simp only at h
        split at h
        · cases h
        · cases hr : sb.read NAME_LEN with
          | error e => rw [hr] at h; cases h
          | ok z =>
            obtain ⟨name, sc⟩ := z
            rw [hr] at h
            simp only [Except.ok.injEq, Prod.mk.injEq, Option.some.injEq] at h
            rw [← h.1]
            exact read_length hr
    · simp only [h1, if_false] at h
      split at h
      · cases h
      · cases hr : sa.read NAME_LEN with
        | error e => rw [hr] at h; cases h
        | ok z =>
          obtain ⟨name, sc⟩ := z
          rw [hr] at h
          simp only [Except.ok.injEq, Prod.mk.injEq, Option.some.injEq] at h
          rw [← h.1]
          exact read_length hr

theorem strcmpEq_expects {st : state_t} {name : List Byte} (hst : st ≠ .found)
    (hlen : name.length = 4) : strcmpEq name st.expects = decide (name = st.expects) := by
  cases st
  · exact strcmpEq_ftyp hlen
  · exact strcmpEq_moov hlen
  · exact strcmpEq_mvhd hlen
  · exact absurd rfl hst

/-- C15. In every iteration of the scan loop that goes round again (the state
before it is not `found`, a header is read and accepted), the new state is the old
one when the tag read differs from the awaited tag and its immediate successor when
the tag read is the awaited one, so its rank stays or grows by exactly one; the
payload is skipped (the cursor is moved by the payload length from the end of the
header) in every case but that of a matching `moov` or `mvhd`, where the cursor
stays at the end of the header. -/
theorem scan_state_forward (t : Target) (s s1 : mp4Stream) (st st1 : state_t)
    (hst : st ≠ .found) (hstep : scanStep t s st = .inl (s1, st1)) :
    ∃ (hdr : hdr_t) (sh : mp4Stream),
      readHdr t s = .ok (some hdr, sh)
        ∧ st1 = (if hdr.name = st.expects then st.next else st)
        ∧ (st1.rank = st.rank ∨ st1.rank = st.rank + 1)
        ∧ (if hdr.name = st.expects ∧ st ≠ .findFtyp then s1 = sh
            else sh.seekpCur (toStreamoff hdr.len) = .ok s1) := by
  unfold scanStep at hstep
  cases hh : readHdr t s with
  | error e => rw [hh] at hstep; cases hstep
  | ok x =>
    obtain ⟨r, sh⟩ := x
    rw [hh] at hstep
    cases r with
    | none => cases hstep
    | some hdr =>
      have hlen := readHdr_name_length t hh
      refine ⟨hdr, sh, rfl, ?_⟩
      simp only at hstep
      by_cases hm : hdr.name = st.expects
      · have hcmp : strcmpEq hdr.name st.expects = true := by
          rw [strcmpEq_expects hst hlen]; exact decide_eq_true hm
        cases st with
        | findFtyp =>
          simp only [scanSwitch, state_t.expects] at hstep hcmp
          simp only [hcmp, if_true] at hstep
          cases hs : sh.seekpCur (toStreamoff hdr.len) with
          | error e => rw [hs] at hstep; cases hstep
          | ok s2 =>
            rw [hs] at hstep
            cases hstep
            simp [hm, state_t.next, state_t.rank]
        | findMoov =>
          simp only [scanSwitch, state_t.expects] at hstep hcmp
          simp only [hcmp, if_true] at hstep
          cases hstep
          simp [hm, state_t.next, state_t.rank]
        | findMvhd =>
          simp only [scanSwitch, state_t.expects] at hstep hcmp
          simp only [hcmp, if_true] at hstep
          cases hstep
          simp [hm, state_t.next, state_t.rank]
        | found => exact absurd rfl hst
      · have hsw := scanSwitch_skip hst hlen hm
        rw [hsw] at hstep
        simp only at hstep
        cases hs : sh.seekpCur (toStreamoff hdr.len) with
        | error e => rw [hs] at hstep; cases hstep
        | ok s2 =>
          rw [hs] at hstep
          cases hstep
          simp [hm]

set_option maxRecDepth 8000 in
/-- C15 on the first iteration over the minimal file: `ftyp` is met, the state
moves to `findMoov` and the 4-octet payload is skipped. -/
theorem scan_state_forward_witness :
    ∃ (hdr : hdr_t) (sh : mp4Stream),
      readHdr .x64 (mp4Stream.open minimalFile) = .ok (some hdr, sh)
        ∧ state_t.findMoov = (if hdr.name = state_t.findFtyp.expects then state_t.findFtyp.next
            else state_t.findFtyp)
        ∧ (state_t.findMoov.rank = state_t.findFtyp.rank
            ∨ state_t.findMoov.rank = state_t.findFtyp.rank + 1)
        ∧ (if hdr.name = state_t.findFtyp.expects ∧ state_t.findFtyp ≠ .findFtyp
            then (⟨minimalFile, 12⟩ : mp4Stream) = sh
            else sh.seekpCur (toStreamoff hdr.len) = .ok ⟨minimalFile, 12⟩) :=
  scan_state_forward .x64 (mp4Stream.open minimalFile) ⟨minimalFile, 12⟩ .findFtyp .findMoov
    (by decide) (by decide)

/-! ## C17: every version octet other than 1 is handled as version 0 -/

/-- What the 32-bit path does, in closed form. -/
theorem patch32_eq (dryrun : Bool) (date : Option Nat) (data : List Byte) (p : Nat)
    (hp : p < data.length) :
    patch32 dryrun date ⟨data, p⟩ =
      match date with
      | some d =>
        if dryrun then ⟨.exit 0, data, some d⟩
        else if p + 8 ≤ data.length then
          ⟨.exit 0, data.take (p + 4) ++ be32 (d % 2 ^ 32) ++ data.drop (p + 4 + 4), none⟩
        else ⟨.ioError .truncated, data, none⟩
      | none =>
        if p + 8 ≤ data.length then
          ⟨.exit 0, data, some (beDecode ((data.drop (p + 4)).take 4))⟩
        else ⟨.ioError .truncated, data, none⟩ := by
  have heof : (mp4Stream.mk data p).eof = false := by
    simp only [mp4Stream.eof, decide_eq_false_iff_not]; omega
  have hr8 : mp4Stream.readUint8 ⟨data, p⟩
      = .ok (beDecode ((data.drop p).take 1), ⟨data, p + 1⟩) := by
    have hle : p + 1 ≤ data.length := hp
    simp [mp4Stream.readUint8, mp4Stream.read, hle]
  by_cases h8 : p + 8 ≤ data.length
  · have hig : (mp4Stream.mk data (p + 1)).ignore 3 = ⟨data, p + 4⟩ := by
      simp only [mp4Stream.ignore]
      congr 1
      omega
    have hrd : mp4Stream.readUint32 ⟨data, p + 4⟩
        = .ok (beDecode ((data.drop (p + 4)).take 4), ⟨data, p + 4 + 4⟩) := by
      have hle : p + 4 + 4 ≤ data.length := by omega
      simp [mp4Stream.readUint32, mp4Stream.read, hle]
    have hsk : mp4Stream.seekpCur ⟨data, p + 4 + 4⟩ (-4) = .ok ⟨data, p + 4⟩ := by
      have h1 : ¬ (((p + 4 + 4 : Nat) : Int) + (-4) < 0) := by omega
      have h2 : (((p + 4 + 4 : Nat) : Int) + (-4)).toNat = p + 4 := by omega
      simp only [mp4Stream.seekpCur, h1, if_false, h2]
    cases date with
    | none => simp only [patch32, heof, hr8, hig, hrd, h8, if_true]; simp
    | some d =>
      have hwr : mp4Stream.writeUint32 ⟨data, p + 4⟩ (d % 2 ^ 32)
          = .ok ⟨data.take (p + 4) ++ be32 (d % 2 ^ 32) ++ data.drop (p + 4 + 4), p + 4 + 4⟩ := by
        have hle : p + 4 + 4 ≤ data.length := by omega
        simp only [mp4Stream.writeUint32, mp4Stream.write, length_be32, hle, if_true]
      cases dryrun with
      | true => simp only [patch32, heof, hr8, hig, if_true]; simp
      | false => simp only [patch32, heof, hr8, hig, hrd, hsk, hwr, h8, if_true]; simp
  · have hrd : mp4Stream.readUint32 ((mp4Stream.mk data (p + 1)).ignore 3)
        = .error .truncated := by
      have hle : ¬ (max (p + 1) (min (p + 1 + 3) data.length) + 4 ≤ data.length) := by omega
      simp [mp4Stream.readUint32, mp4Stream.read, mp4Stream.ignore, hle]
    have hdata : ((mp4Stream.mk data (p + 1)).ignore 3).data = data := rfl
    cases date with
    | none => simp only [patch32, heof, hr8, hrd, h8, if_false, hdata]; simp
    | some d =>
      cases dryrun with
      | true => simp only [patch32, heof, hr8, if_true, hdata]; simp
      | false => simp only [patch32, heof, hr8, hrd, h8, if_false, hdata]; simp

/-- On a version octet other than 1 the patch driver is the 32-bit path. -/
theorem patch_eq_patch32 (dryrun : Bool) (date : Option Nat) (s : mp4Stream) (v : Byte)
    (hv : s.data[s.pos]? = some v) (h1 : v ≠ 1) :
    patch dryrun date s = patch32 dryrun date s := by
  have hv1 : ¬ (v.val = 1) := fun h => h1 (Fin.ext h)
  simp only [patch, patch32, readUint8_at hv, hv1, if_false]

/-- The 32-bit path does not depend on the octet under the cursor: changing it
changes the result only by that octet. -/
theorem patch32_set (dryrun : Bool) (date : Option Nat) (data : List Byte) (p : Nat) (b : Byte)
    (hp : p < data.length) :
    patch32 dryrun date ⟨data.set p b, p⟩
      = ⟨(patch32 dryrun date ⟨data, p⟩).outcome, (patch32 dryrun date ⟨data, p⟩).file.set p b,
          (patch32 dryrun date ⟨data, p⟩).printed⟩ := by
  have hp' : p < (data.set p b).length := by rw [List.length_set]; exact hp
  rw [patch32_eq dryrun date (data.set p b) p hp', patch32_eq dryrun date data p hp]
  have hdrop4 : (data.set p b).drop (p + 4) = data.drop (p + 4) :=
    List.drop_set_of_lt b data (by omega)
  have hdrop8 : (data.set p b).drop (p + 4 + 4) = data.drop (p + 4 + 4) :=
    List.drop_set_of_lt b data (by omega)
  cases date with
  | none =>
    simp only [List.length_set, hdrop4]
    split <;> rfl
  | some d =>
    simp only [List.length_set, hdrop8]
    cases dryrun with
    | true => simp
    | false =>
      simp only [Bool.false_eq_true, if_false]
      split
      · next h8 =>
        have hlt : p < (data.take (p + 4)).length := by rw [List.length_take]; omega
        simp only [List.set_take, List.append_assoc, RunResult.mk.injEq, true_and, and_true]
        rw [List.set_append_left p b hlt]
      · rfl

/-- C17. For every version octet `v` other than 1 under the cursor, the patch driver
is the 32-bit path that the specification describes for version 0 (read mode reads
a 32-bit creation time; write mode reads 4 octets, seeks back 4 and overwrites them
with the low 32 bits of the new time), and so is it on the same file with the
version octet set to 0: the outcome and the value reported are the same, and the
resulting files are the same but for the version octet itself. -/
theorem other_version_as_version0 (dryrun : Bool) (date : Option Nat) (file : List Byte)
    (p : Nat) (v : Byte) (hv : file[p]? = some v) (h1 : v ≠ 1) :
    patch dryrun date ⟨file, p⟩ = patch32 dryrun date ⟨file, p⟩
      ∧ patch dryrun date ⟨file.set p 0, p⟩ = patch32 dryrun date ⟨file.set p 0, p⟩
      ∧ (patch dryrun date ⟨file, p⟩).outcome = (patch dryrun date ⟨file.set p 0, p⟩).outcome
      ∧ (patch dryrun date ⟨file, p⟩).printed = (patch dryrun date ⟨file.set p 0, p⟩).printed
      ∧ (patch dryrun date ⟨file, p⟩).file.set p 0
          = (patch dryrun date ⟨file.set p 0, p⟩).file := by
  have hp : p < file.length := by
    by_contra hc
    rw [List.getElem?_eq_none (by omega)] at hv
    cases hv
  have hv0 : (mp4Stream.mk (file.set p 0) p).data[(mp4Stream.mk (file.set p 0) p).pos]?
      = some (0 : Byte) := by
    simp [List.getElem?_set, hp]
  have e1 := patch_eq_patch32 dryrun date ⟨file, p⟩ v hv h1
  have e0 := patch_eq_patch32 dryrun date ⟨file.set p 0, p⟩ 0 hv0 (by decide)
  refine ⟨e1, e0, ?_, ?_, ?_⟩
  · rw [e1, e0, patch32_set dryrun date file p 0 hp]
  · rw [e1, e0, patch32_set dryrun date file p 0 hp]
  · rw [e1, e0, patch32_set dryrun date file p 0 hp]

/-- C17 on the minimal file with version octet 2, in write mode. -/
theorem other_version_as_version0_witness :
    patch false (some 4294967301) ⟨version2File, 28⟩
        = patch32 false (some 4294967301) ⟨version2File, 28⟩
      ∧ (patch false (some 4294967301) ⟨version2File, 28⟩).file.set 28 0
          = (patch false (some 4294967301) ⟨version2File.set 28 0, 28⟩).file :=
  have h := other_version_as_version0 false (some 4294967301) version2File 28 2
    (by decide) (by decide)
  ⟨h.1, h.2.2.2.2⟩

/-! ## C19: a write followed by a read -/

/-- Read mode on the version octet 1: the eight octets after the reserved ones are
reported. -/
theorem patch_read64 (dryrun : Bool) (s : mp4Stream) (hv : s.data[s.pos]? = some 1)
    (hlen : s.pos + 12 ≤ s.data.length) :
    patch dryrun none s
      = ⟨.exit 0, s.data, some (beDecode ((s.data.drop (s.pos + 4)).take 8))⟩ := by
  have heof : s.eof = false := by
    simp only [mp4Stream.eof, decide_eq_false_iff_not]; omega
  have hig : (mp4Stream.mk s.data (s.pos + 1)).ignore 3 = ⟨s.data, s.pos + 4⟩ := by
    simp only [mp4Stream.ignore]
    congr 1
    omega
  have hrd : mp4Stream.readUint64 ⟨s.data, s.pos + 4⟩
      = .ok (beDecode ((s.data.drop (s.pos + 4)).take 8), ⟨s.data, s.pos + 4 + 8⟩) := by
    have hle : s.pos + 4 + 8 ≤ s.data.length := by omega
    simp [mp4Stream.readUint64, mp4Stream.read, hle]
  simp only [patch, heof, readUint8_at hv, hig, hrd]
  simp

/-- C19 as stated fails: on a file whose scan walks over the creation-time field
before it reaches `found` (at offset 32, version octet 0, 20 octets following), a
write-mode run with the new time 5 succeeds, and the read-mode run on the resulting
file exits with -3 and reports nothing. -/
theorem write_then_read_trap :
    (scanLoop .x86 10 (mp4Stream.open trapFile) .findFtyp = .exited ⟨trapFile, 32⟩ .found
        ∧ trapFile[32]? = some 0
        ∧ 32 + 8 ≤ trapFile.length
        ∧ (run .x86 10 false (some 5) trapFile).outcome = .exit 0
        ∧ run .x86 10 false none (run .x86 10 false (some 5) trapFile).file
            = ⟨.exit (-3), (run .x86 10 false (some 5) trapFile).file, none⟩)
      ∧ (scanLoop .x64 10 (mp4Stream.open trapFile) .findFtyp = .exited ⟨trapFile, 32⟩ .found
        ∧ trapFile[32]? = some 0
        ∧ 32 + 8 ≤ trapFile.length
        ∧ (run .x64 10 false (some 5) trapFile).outcome = .exit 0
        ∧ run .x64 10 false none (run .x64 10 false (some 5) trapFile).file
            = ⟨.exit (-3), (run .x64 10 false (some 5) trapFile).file, none⟩) := by
  decide

/-- C19, amended.  When the scan ends in `found` at offset `p` with version octet `v`
and enough octets after `p` (12 for version 1, 8 otherwise), and the scan of the
file left by a write-mode run with the new time `d` ends in `found` at `p` again,
the read-mode run on that file exits with 0 and reports `d` when `v` is 1 and
`d mod 2^32` otherwise; the latter is `d` exactly when `d < 2^32`. -/
theorem write_then_read (t : Target) (n : Nat) (file : List Byte) (p d : Nat) (v : Byte)
    (hscan : scanLoop t n (mp4Stream.open file) .findFtyp = .exited ⟨file, p⟩ .found)
    (hver : file[p]? = some v)
    (hlen : p + (if v = 1 then 12 else 8) ≤ file.length)
    (hd : d < 2 ^ 64)
    (hscan2 : scanLoop t n (mp4Stream.open (run t n false (some d) file).file) .findFtyp
      = .exited ⟨(run t n false (some d) file).file, p⟩ .found) :
    (run t n false none (run t n false (some d) file).file).outcome = .exit 0
      ∧ (run t n false none (run t n false (some d) file).file).printed
          = some (if v = 1 then d else d % 2 ^ 32)
      ∧ (d % 2 ^ 32 = d ↔ d < 2 ^ 32) := by
  have harith : d % 2 ^ 32 = d ↔ d < 2 ^ 32 := by omega
  by_cases h1 : v = 1
  · subst h1
    simp only [if_true] at hlen ⊢
    have hrun : run t n false (some d) file
        = ⟨.exit 0, file.take (p + 4) ++ be64 d ++ file.drop (p + 4 + (be64 d).length), none⟩ := by
      simp only [run, hscan]
      exact patch_write64 ⟨file, p⟩ d hver hlen
    rw [hrun] at hscan2 ⊢
    have hfr := overwrite_frame file (be64 d) (p + 4) (by rw [length_be64]; omega)
    have hv2 := hfr.2.1 p (Or.inl (by omega))
    rw [hver] at hv2
    have hread := patch_read64 false
      ⟨file.take (p + 4) ++ be64 d ++ file.drop (p + 4 + (be64 d).length), p⟩ hv2
      (by simp only; rw [hfr.1]; exact hlen)
    simp only [run, hscan2, hread]
    refine ⟨trivial, ?_, harith⟩
    exact congrArg some ((congrArg beDecode hfr.2.2).trans (beDecode_be64 d hd))
  · simp only [h1, if_false] at hlen ⊢
    have hrun : run t n false (some d) file
        = ⟨.exit 0, file.take (p + 4) ++ be32 (d % 2 ^ 32) ++
            file.drop (p + 4 + (be32 (d % 2 ^ 32)).length), none⟩ := by
      simp only [run, hscan]
      exact patch_write32 ⟨file, p⟩ d v hver h1 hlen
    rw [hrun] at hscan2 ⊢
    have hfr := overwrite_frame file (be32 (d % 2 ^ 32)) (p + 4) (by rw [length_be32]; omega)
    have hv2 := hfr.2.1 p (Or.inl (by omega))
    rw [hver] at hv2
    have hlen2 : p + 8 ≤ (file.take (p + 4) ++ be32 (d % 2 ^ 32) ++
        file.drop (p + 4 + (be32 (d % 2 ^ 32)).length)).length := by
      rw [hfr.1]; exact hlen
    have hread : patch false none
        ⟨file.take (p + 4) ++ be32 (d % 2 ^ 32) ++
            file.drop (p + 4 + (be32 (d % 2 ^ 32)).length), p⟩
        = ⟨.exit 0, file.take (p + 4) ++ be32 (d % 2 ^ 32) ++
            file.drop (p + 4 + (be32 (d % 2 ^ 32)).length),
          some (beDecode (((file.take (p + 4) ++ be32 (d % 2 ^ 32) ++
            file.drop (p + 4 + (be32 (d % 2 ^ 32)).length)).drop (p + 4)).take 4))⟩ := by
      rw [patch_eq_patch32 false none _ v hv2 h1, patch32_eq false none _ p (by omega)]
      simp only [hlen2, if_true]
    simp only [run, hscan2, hread]
    refine ⟨trivial, ?_, harith⟩
    exact congrArg some
      ((congrArg beDecode hfr.2.2).trans (beDecode_be32 _ (Nat.mod_lt _ (by decide))))

/-- C19 (amended) on the minimal file with a new time above `2 ^ 32`. -/
theorem write_then_read_witness :
    (run .x64 10 false none (run .x64 10 false (some 4294967301) minimalFile).file).outcome
        = .exit 0
      ∧ (run .x64 10 false none (run .x64 10 false (some 4294967301) minimalFile).file).printed
        = some (if (0 : Byte) = 1 then 4294967301 else 4294967301 % 2 ^ 32) :=
  have h := write_then_read .x64 10 minimalFile 28 4294967301 0
    (by decide) (by decide) (by decide) (by decide) (by decide)
  ⟨h.1, h.2.1⟩

/-! ## C16: the scanner does not track the end of `moov` -/

theorem encodeBoxes_append (as bs : List Box) :
    encodeBoxes (as ++ bs) = encodeBoxes as ++ encodeBoxes bs := by
  induction as with
  | nil => rfl
  | cons a as ih => simp [encodeBoxes, ih]

/-- C16 as stated fails: on the file made of `ftyp`, an empty `moov` (body at offset
20, payload length 0) and a top-level `mvhd` whose header starts at offset 20, the
scan ends in `found` at the body of that `mvhd` (offset 28), although its header
does not start inside the `moov` payload; a write-mode run overwrites its creation
time. -/
theorem orphan_mvhd_is_taken :
    (scanLoop .x86 10 (mp4Stream.open orphanFile) .findFtyp = .exited ⟨orphanFile, 28⟩ .found
        ∧ readHdr .x86 ⟨orphanFile, 12⟩ = .ok (some ⟨0, moov⟩, ⟨orphanFile, 20⟩)
        ∧ readHdr .x86 ⟨orphanFile, 20⟩ = .ok (some ⟨8, mvhd⟩, ⟨orphanFile, 28⟩)
        ∧ ¬ (20 ≤ 20 ∧ 20 < 20 + 0)
        ∧ (run .x86 10 false (some 5) orphanFile).outcome = .exit 0
        ∧ (run .x86 10 false (some 5) orphanFile).file ≠ orphanFile)
      ∧ (scanLoop .x64 10 (mp4Stream.open orphanFile) .findFtyp
          = .exited ⟨orphanFile, 28⟩ .found
        ∧ readHdr .x64 ⟨orphanFile, 12⟩ = .ok (some ⟨0, moov⟩, ⟨orphanFile, 20⟩)
        ∧ readHdr .x64 ⟨orphanFile, 20⟩ = .ok (some ⟨8, mvhd⟩, ⟨orphanFile, 28⟩)
        ∧ ¬ (20 ≤ 20 ∧ 20 < 20 + 0)
        ∧ (run .x64 10 false (some 5) orphanFile).outcome = .exit 0
        ∧ (run .x64 10 false (some 5) orphanFile).file ≠ orphanFile) := by
  decide

/-- C16, amended.  After the `moov` header the scanner reads box headers one after
the other, wherever `moov` ends.  When the payload of `moov` is a run of well-formed
boxes `inner` none of which is tagged `mvhd`, and `moov` is followed by well-formed
top-level boxes `sibs` not tagged `mvhd` and then by an `mvhd` box, the scan ends in
`found` at the body of that `mvhd`, whose header starts at or after the end of
`moov`. -/
theorem scan_takes_mvhd_after_moov (t : Target) (pre : List Box) (ftypB : Box)
    (mid : List Box) (moovB : Box) (inner sibs : List Box) (mvhdB : Box) (tail : List Byte)
    (n : Nat)
    (hpre : ∀ b ∈ pre, b.wf ∧ b.tag ≠ ftyp)
    (hftyp : ftypB.wf ∧ ftypB.tag = ftyp)
    (hmid : ∀ b ∈ mid, b.wf ∧ b.tag ≠ moov)
    (hmoov : moovB.wf ∧ moovB.tag = moov)
    (hinner : ∀ b ∈ inner, b.wf ∧ b.tag ≠ mvhd)
    (hsibs : ∀ b ∈ sibs, b.wf ∧ b.tag ≠ mvhd)
    (hmvhd : mvhdB.wf ∧ mvhdB.tag = mvhd)
    (hpayload : moovB.payload = encodeBoxes inner)
    (hsize : (layout pre ftypB mid moovB (encodeBoxes sibs ++ (mvhdB.encode ++ tail))).length
      < 2 ^ 63)
    (hfuel : pre.length + mid.length + inner.length + sibs.length + 4 ≤ n) :
    scanLoop t n
        (mp4Stream.open (layout pre ftypB mid moovB (encodeBoxes sibs ++ (mvhdB.encode ++ tail))))
        .findFtyp
      = .exited ⟨layout pre ftypB mid moovB (encodeBoxes sibs ++ (mvhdB.encode ++ tail)),
          moovEndOffset pre ftypB mid moovB + (encodeBoxes sibs).length + mvhdB.headerLen⟩
          .found
      ∧ moovEndOffset pre ftypB mid moovB
          ≤ moovEndOffset pre ftypB mid moovB + (encodeBoxes sibs).length := by
  refine ⟨?_, Nat.le_add_right _ _⟩
  obtain ⟨m, rfl⟩ : ∃ m, n = pre.length + (((mid.length +
      ((((inner ++ sibs).length + ((m + 1) + 1))) + 1))) + 1) :=
    ⟨n - (pre.length + mid.length + inner.length + sibs.length + 4), by
      rw [List.length_append]; omega⟩
  generalize hfile : layout pre ftypB mid moovB (encodeBoxes sibs ++ (mvhdB.encode ++ tail))
    = file at hsize ⊢
  have hkids : ∀ b ∈ inner ++ sibs, b.wf ∧ b.tag ≠ mvhd := by
    intro b hb
    rcases List.mem_append.mp hb with h | h
    · exact hinner b h
    · exact hsibs b h
  have d0 : file.drop 0
      = encodeBoxes pre ++ (ftypB.encode ++ (encodeBoxes mid ++
          (moovB.encode ++ (encodeBoxes sibs ++ (mvhdB.encode ++ tail))))) := by
    rw [← hfile]; rfl
  have e0 := scanLoop_skip_boxes t .findFtyp (by decide) file hsize
    (((mid.length + ((((inner ++ sibs).length + ((m + 1) + 1))) + 1))) + 1) pre 0 _ hpre d0
  have d1 := drop_add_of_drop_eq d0
  have s1 := scanStep_ftyp t (s := ⟨file, 0 + (encodeBoxes pre).length⟩) d1 hftyp.1 hsize hftyp.2
  have e1 := scanLoop_succ_of_step t (mid.length + ((((inner ++ sibs).length + ((m + 1) + 1))) + 1))
    (not_eof_of_drop_eq (s := ⟨file, 0 + (encodeBoxes pre).length⟩) d1 hftyp.1) (by decide) s1
  have d2 := drop_after_box d1 hftyp.1
  have e2 := scanLoop_skip_boxes t .findMoov (by decide) file hsize
    ((((inner ++ sibs).length + ((m + 1) + 1))) + 1) mid _ _ hmid d2
  have d3 := drop_add_of_drop_eq d2
  have s3 := scanStep_moov t (s := ⟨file, _⟩) d3 hmoov.1 hsize hmoov.2
  have e3 := scanLoop_succ_of_step t ((inner ++ sibs).length + ((m + 1) + 1))
    (not_eof_of_drop_eq (s := ⟨file, _⟩) d3 hmoov.1) (by decide) s3
  have d4 := drop_after_header d3 hmoov.1
  rw [hpayload, ← List.append_assoc, ← encodeBoxes_append] at d4
  have e4 := scanLoop_skip_boxes t .findMvhd (by decide) file hsize ((m + 1) + 1)
    (inner ++ sibs) _ _ hkids d4
  have d5 := drop_add_of_drop_eq d4
  have s5 := scanStep_mvhd t (s := ⟨file, _⟩) d5 hmvhd.1 hsize hmvhd.2
  have e5 := scanLoop_succ_of_step t (m + 1)
    (not_eof_of_drop_eq (s := ⟨file, _⟩) d5 hmvhd.1) (by decide) s5
  have hp : moovEndOffset pre ftypB mid moovB + (encodeBoxes sibs).length + mvhdB.headerLen
      = 0 + (encodeBoxes pre).length + ftypB.size + (encodeBoxes mid).length + moovB.headerLen
        + (encodeBoxes (inner ++ sibs)).length + mvhdB.headerLen := by
    simp only [moovEndOffset, Box.size, hpayload, encodeBoxes_append, List.length_append]
    omega
  rw [mp4Stream.open, e0, e1, e2, e3, e4, e5, scanLoop_found, hp]

/-- C16 (amended) on the file with an empty `moov` followed by a `free` box and a
top-level `mvhd`. -/
theorem scan_takes_mvhd_after_moov_witness :
    scanLoop .x64 5
        (mp4Stream.open (layout [] ⟨false, ftyp, [105, 115, 111, 109]⟩ [] ⟨false, moov, []⟩
          (encodeBoxes [⟨false, [102, 114, 101, 101], [7]⟩]
            ++ (Box.encode ⟨false, mvhd, [0, 0, 0, 0, 0, 0, 0, 9]⟩ ++ []))))
        .findFtyp
      = .exited ⟨layout [] ⟨false, ftyp, [105, 115, 111, 109]⟩ [] ⟨false, moov, []⟩
          (encodeBoxes [⟨false, [102, 114, 101, 101], [7]⟩]
            ++ (Box.encode ⟨false, mvhd, [0, 0, 0, 0, 0, 0, 0, 9]⟩ ++ [])), 37⟩ .found :=
  (scan_takes_mvhd_after_moov .x64 [] ⟨false, ftyp, [105, 115, 111, 109]⟩ [] ⟨false, moov, []⟩
    [] [⟨false, [102, 114, 101, 101], [7]⟩] ⟨false, mvhd, [0, 0, 0, 0, 0, 0, 0, 9]⟩ [] 5
    (by decide) (by decide) (by decide) (by decide) (by decide) (by decide) (by decide) rfl
    (by decide) (by decide)).1

/-! ## The text scanner on digits -/

theorem parseFormat_A :
    parseFormat "%04u-%02u-%02uT%02u:%02u:%02u"
      = [.uint true (some 4), .lit 45, .uint true (some 2), .lit 45, .uint true (some 2),
          .lit 84, .uint true (some 2), .lit 58, .uint true (some 2), .lit 58,
          .uint true (some 2)] := by
  decide

theorem parseFormat_B :
    parseFormat "%04u%02u%02uT%02u%02u%02u"
      = [.uint true (some 4), .uint true (some 2), .uint true (some 2),
          .lit 84, .uint true (some 2), .uint true (some 2), .uint true (some 2)] := by
  decide

theorem parseFormat_C :
    parseFormat "%04u-%02u-%02u"
      = [.uint true (some 4), .lit 45, .uint true (some 2), .lit 45, .uint true (some 2)] := by
  decide

theorem parseFormat_D :
    parseFormat "%04u%02u%02u"
      = [.uint true (some 4), .uint true (some 2), .uint true (some 2)] := by
  decide

theorem parseFormat_J :
    parseFormat "Johan (%uj%um)"
      = [.lit 74, .lit 111, .lit 104, .lit 97, .lit 110, .lit 32, .lit 40,
          .uint false none, .lit 106, .uint false none, .lit 109, .lit 41] := by
  decide

theorem skipWs_digit (a : Nat) (ha : a < 10) (rest : List Nat) :
    skipWs ((48 + a) :: rest) = (48 + a) :: rest := by
  have : isspace (48 + a) = false := by
    simp only [isspace, decide_eq_false_iff_not]; omega
  simp [skipWs, List.dropWhile, this]

theorem isdigit_digit (a : Nat) (ha : a < 10) : isdigit (48 + a) = true := by
  simp only [isdigit, decide_eq_true_eq]; omega

theorem scanUInt4_digits (a3 a2 a1 a0 : Nat) (h3 : a3 < 10) (h2 : a2 < 10) (h1 : a1 < 10)
    (h0 : a0 < 10) (rest : List Nat) :
    scanUInt (some 4) ((48 + a3) :: (48 + a2) :: (48 + a1) :: (48 + a0) :: rest)
      = some (a3 * 1000 + a2 * 100 + a1 * 10 + a0, rest) := by
  have h45 : ¬ (48 + a3 = 45) := by omega
  have h43 : ¬ (48 + a3 = 43) := by omega
  simp [scanUInt, h45, h43, List.takeWhile, isdigit_digit _ h3, isdigit_digit _ h2,
    isdigit_digit _ h1, isdigit_digit _ h0]
  omega

theorem scanUInt2_digits (a1 a0 : Nat) (h1 : a1 < 10) (h0 : a0 < 10) (rest : List Nat) :
    scanUInt (some 2) ((48 + a1) :: (48 + a0) :: rest) = some (a1 * 10 + a0, rest) := by
  have h45 : ¬ (48 + a1 = 45) := by omega
  have h43 : ¬ (48 + a1 = 43) := by omega
  simp [scanUInt, h45, h43, List.takeWhile, isdigit_digit _ h1, isdigit_digit _ h0]
  omega

theorem printUInt4 (x : Int) (h0 : 0 ≤ x) (h1 : x ≤ 9999) :
    printUInt true (some 4) x
      = [48 + x.toNat / 1000, 48 + x.toNat / 100 % 10, 48 + x.toNat / 10 % 10,
          48 + x.toNat % 10] := by
  have hx : (x % 2 ^ 32).toNat = x.toNat := by
    rw [Int.emod_eq_of_lt h0 (by omega)]
  have hn : x.toNat < 10000 := by omega
  simp only [printUInt, hx, Option.getD, if_true]
  generalize x.toNat = n at hn
  by_cases c1 : n < 10
  · have e1 : n / 10 = 0 := by omega
    simp [digitsRev, e1]
    omega
  · by_cases c2 : n < 100
    · have e1 : ¬ (n / 10 = 0) := by omega
      have e2 : n / 10 / 10 = 0 := by omega
      simp [digitsRev, e1, e2]
      omega
    · by_cases c3 : n < 1000
      · have e1 : ¬ (n / 10 = 0) := by omega
        have e2 : ¬ (n / 10 / 10 = 0) := by omega
        have e3 : n / 10 / 10 / 10 = 0 := by omega
        simp [digitsRev, e1, e2, e3]
        omega
      · have e1 : ¬ (n / 10 = 0) := by omega
        have e2 : ¬ (n / 10 / 10 = 0) := by omega
        have e3 : ¬ (n / 10 / 10 / 10 = 0) := by omega
        have e4 : n / 10 / 10 / 10 / 10 = 0 := by omega
        simp [digitsRev, e1, e2, e3, e4]
        omega

theorem printUInt2 (x : Int) (h0 : 0 ≤ x) (h1 : x ≤ 99) :
    printUInt true (some 2) x = [48 + x.toNat / 10, 48 + x.toNat % 10] := by
  have hx : (x % 2 ^ 32).toNat = x.toNat := by
    rw [Int.emod_eq_of_lt h0 (by omega)]
  have hn : x.toNat < 100 := by omega
  simp only [printUInt, hx, Option.getD, if_true]
  generalize x.toNat = n at hn
  by_cases c1 : n < 10
  · have e1 : n / 10 = 0 := by omega
    simp [digitsRev, e1]
  · have e1 : ¬ (n / 10 = 0) := by omega
    have e2 : n / 10 / 10 = 0 := by omega
    simp [digitsRev, e1, e2]
    omega

/-- The date-only format on a text that starts with `YYYY-MM-DD`. -/
theorem scanItems_C_date (y3 y2 y1 y0 m1 m0 d1 d0 : Nat) (hy3 : y3 < 10) (hy2 : y2 < 10)
    (hy1 : y1 < 10) (hy0 : y0 < 10) (hm1 : m1 < 10) (hm0 : m0 < 10) (hd1 : d1 < 10)
    (hd0 : d0 < 10) (rest : List Nat) :
    scanItems (parseFormat "%04u-%02u-%02u") (dateChars y3 y2 y1 y0 m1 m0 d1 d0 ++ rest)
      = ([y3 * 1000 + y2 * 100 + y1 * 10 + y0, m1 * 10 + m0, d1 * 10 + d0], false) := by
  simp [parseFormat_C, dateChars, scanItems, skipWs_digit, scanUInt4_digits, scanUInt2_digits,
    hy3, hy2, hy1, hy0, hm1, hm0, hd1, hd0, isspace]

/-- The full format on a text that starts with `YYYY-MM-DDTHH:MM:SS`. -/
theorem scanItems_A_datetime (y3 y2 y1 y0 m1 m0 d1 d0 h1 h0 n1 n0 s1 s0 : Nat)
    (hy3 : y3 < 10) (hy2 : y2 < 10) (hy1 : y1 < 10) (hy0 : y0 < 10) (hm1 : m1 < 10)
    (hm0 : m0 < 10) (hd1 : d1 < 10) (hd0 : d0 < 10) (hh1 : h1 < 10) (hh0 : h0 < 10)
    (hn1 : n1 < 10) (hn0 : n0 < 10) (hs1 : s1 < 10) (hs0 : s0 < 10) (rest : List Nat) :
    scanItems (parseFormat "%04u-%02u-%02uT%02u:%02u:%02u")
        (dateChars y3 y2 y1 y0 m1 m0 d1 d0 ++ (timeChars h1 h0 n1 n0 s1 s0 ++ rest))
      = ([y3 * 1000 + y2 * 100 + y1 * 10 + y0, m1 * 10 + m0, d1 * 10 + d0,
          h1 * 10 + h0, n1 * 10 + n0, s1 * 10 + s0], false) := by
  simp [parseFormat_A, dateChars, timeChars, scanItems, skipWs_digit, scanUInt4_digits,
    scanUInt2_digits, hy3, hy2, hy1, hy0, hm1, hm0, hd1, hd0, hh1, hh0, hn1, hn0, hs1, hs0,
    isspace]

theorem setField_keeps (i : Nat) (v : Int) (c : tm) :
    (setField i v c).tm_wday = c.tm_wday ∧ (setField i v c).tm_yday = c.tm_yday := by
  unfold setField
  split <;> exact ⟨rfl, rfl⟩

theorem storeFields_keeps (vs : List Nat) :
    ∀ (i : Nat) (c : tm),
      (storeFields i vs c).tm_wday = c.tm_wday ∧ (storeFields i vs c).tm_yday = c.tm_yday := by
  induction vs with
  | nil => intro i c; exact ⟨rfl, rfl⟩
  | cons v vs ih =>
    intro i c
    have h1 := ih (i + 1) (setField i (toInt32 v) c)
    have h2 := setField_keeps i (toInt32 v) c
    exact ⟨h1.1.trans h2.1, h1.2.trans h2.2⟩

theorem toInt32_small (v : Nat) (h : v < 10000) : toInt32 v = (v : Int) := by
  have h1 : v % 2 ^ 32 = v := Nat.mod_eq_of_lt (by omega)
  have h2 : v < 2 ^ 31 := by omega
  simp only [toInt32, h1, h2, if_true]

/-- Whatever the two date-time formats have stored, once the time of day is reset
and the date-only format has stored year, month and day, the structure handed to
`mktime` is midnight of that date. -/
theorem date_only_tm (v1 v2 : List Nat) (Y M D : Nat) (hY : Y < 10000) (hM : M < 10000)
    (hD : D < 10000) :
    adjust (storeFields 0 [Y, M, D]
        { storeFields 0 v2 (storeFields 0 v1 ⟨0, 0, 0, 0, 0, 0, 0, 0, 0⟩) with
          tm_hour := 0, tm_min := 0, tm_sec := 0 })
      = ⟨0, 0, 0, (D : Int), (M : Int) - 1, (Y : Int) - 1900, 0, 0, -1⟩ := by
  have hk := storeFields_keeps v2 0 (storeFields 0 v1 ⟨0, 0, 0, 0, 0, 0, 0, 0, 0⟩)
  have hk1 := storeFields_keeps v1 0 ⟨0, 0, 0, 0, 0, 0, 0, 0, 0⟩
  simp only [storeFields, setField, adjust, toInt32_small Y hY, toInt32_small M hM,
    toInt32_small D hD, hk.1, hk.2, hk1.1, hk1.2]

theorem sscanf_of_items {inp : List Nat} {fmt : String} {vs : List Nat} {b : Bool}
    (h : scanItems (parseFormat fmt) inp = (vs, b)) (hne : vs ≠ []) :
    sscanf_s inp fmt = ((vs.length : Int), vs) := by
  simp [sscanf_s, h, hne]

/-! ## C20: a partial date-time text is read as its date -/

/-- C20. For every text that starts with `YYYY-MM-DD` (any decimal digits) and on
which neither date-time format converts six fields, `string2time1904` takes the
date-only branch: the structure handed to `mktime` is midnight of that date, the
same as for the bare `YYYY-MM-DD`, and so is the value returned, whatever was given
after the date. -/
theorem partial_datetime_is_date (mktime : tm → Int) (s sd : String)
    (y3 y2 y1 y0 m1 m0 d1 d0 : Nat) (rest : List Nat)
    (hy3 : y3 < 10) (hy2 : y2 < 10) (hy1 : y1 < 10) (hy0 : y0 < 10) (hm1 : m1 < 10)
    (hm0 : m0 < 10) (hd1 : d1 < 10) (hd0 : d0 < 10)
    (hs : cchars s = dateChars y3 y2 y1 y0 m1 m0 d1 d0 ++ rest)
    (hsd : cchars sd = dateChars y3 y2 y1 y0 m1 m0 d1 d0)
    (hA : (sscanf_s (cchars s) "%04u-%02u-%02uT%02u:%02u:%02u").1 ≠ 6)
    (hB : (sscanf_s (cchars s) "%04u%02u%02uT%02u%02u%02u").1 ≠ 6) :
    string2tm (cchars s)
        = some ⟨0, 0, 0, ((d1 * 10 + d0 : Nat) : Int), ((m1 * 10 + m0 : Nat) : Int) - 1,
            ((y3 * 1000 + y2 * 100 + y1 * 10 + y0 : Nat) : Int) - 1900, 0, 0, -1⟩
      ∧ string2tm (cchars sd) = string2tm (cchars s)
      ∧ string2time1904 mktime s = string2time1904 mktime sd := by
  have key : ∀ inp : List Nat,
      (sscanf_s inp "%04u-%02u-%02uT%02u:%02u:%02u").1 ≠ 6 →
      (sscanf_s inp "%04u%02u%02uT%02u%02u%02u").1 ≠ 6 →
      scanItems (parseFormat "%04u-%02u-%02u") inp
        = ([y3 * 1000 + y2 * 100 + y1 * 10 + y0, m1 * 10 + m0, d1 * 10 + d0], false) →
      string2tm inp
        = some ⟨0, 0, 0, ((d1 * 10 + d0 : Nat) : Int), ((m1 * 10 + m0 : Nat) : Int) - 1,
            ((y3 * 1000 + y2 * 100 + y1 * 10 + y0 : Nat) : Int) - 1900, 0, 0, -1⟩ := by
    intro inp h1 h2 h3
    have r3 := sscanf_of_items h3 (by simp)
    have hdt := date_only_tm (sscanf_s inp "%04u-%02u-%02uT%02u:%02u:%02u").2
      (sscanf_s inp "%04u%02u%02uT%02u%02u%02u").2
      (y3 * 1000 + y2 * 100 + y1 * 10 + y0) (m1 * 10 + m0) (d1 * 10 + d0)
      (by omega) (by omega) (by omega)
    simp only [string2tm, h1, h2, if_false, r3, List.length_cons, List.length_nil]
    simp only [Nat.zero_add, Nat.reduceAdd, Nat.cast_ofNat, if_true, hdt]
  have e1 := key (cchars s) hA hB (by
    rw [hs]
    exact scanItems_C_date y3 y2 y1 y0 m1 m0 d1 d0 hy3 hy2 hy1 hy0 hm1 hm0 hd1 hd0 rest)
  have hA0 : (sscanf_s (cchars sd) "%04u-%02u-%02uT%02u:%02u:%02u").1 ≠ 6 := by
    have hit : scanItems (parseFormat "%04u-%02u-%02uT%02u:%02u:%02u")
        (dateChars y3 y2 y1 y0 m1 m0 d1 d0)
        = ([y3 * 1000 + y2 * 100 + y1 * 10 + y0, m1 * 10 + m0, d1 * 10 + d0], true) := by
      simp [parseFormat_A, dateChars, scanItems, skipWs_digit, scanUInt4_digits,
        scanUInt2_digits, hy3, hy2, hy1, hy0, hm1, hm0, hd1, hd0, isspace]
    rw [hsd, sscanf_of_items hit (by simp)]
    simp
  have hB0 : (sscanf_s (cchars sd) "%04u%02u%02uT%02u%02u%02u").1 ≠ 6 := by
    have h45 : skipWs ([45, 48 + m1, 48 + m0, 45, 48 + d1, 48 + d0])
        = [45, 48 + m1, 48 + m0, 45, 48 + d1, 48 + d0] := by
      simp [skipWs, List.dropWhile, isspace]
    have hneg : scanUInt (some 2) ([45, 48 + m1, 48 + m0, 45, 48 + d1, 48 + d0])
        = some ((2 ^ 32 - m1) % 2 ^ 32, [48 + m0, 45, 48 + d1, 48 + d0]) := by
      simp [scanUInt, List.takeWhile, isdigit_digit _ hm1]
      omega
    have hone : scanUInt (some 2) ([48 + m0, 45, 48 + d1, 48 + d0])
        = some (m0, [45, 48 + d1, 48 + d0]) := by
      have h45 : ¬ (48 + m0 = 45) := by omega
      have h43 : ¬ (48 + m0 = 43) := by omega
      have hd : isdigit 45 = false := by decide
      simp [scanUInt, h45, h43, List.takeWhile, isdigit_digit _ hm0, hd]
      omega
    have hit : scanItems (parseFormat "%04u%02u%02uT%02u%02u%02u")
        (dateChars y3 y2 y1 y0 m1 m0 d1 d0)
        = ([y3 * 1000 + y2 * 100 + y1 * 10 + y0, (2 ^ 32 - m1) % 2 ^ 32, m0], false) := by
      simp [parseFormat_B, dateChars, scanItems, skipWs_digit, scanUInt4_digits,
        hy3, hy2, hy1, hy0, hm0, h45, hneg, hone, isspace]
    rw [hsd, sscanf_of_items hit (by simp)]
    simp
  have e2 := key (cchars sd) hA0 hB0 (by
    rw [hsd]
    have := scanItems_C_date y3 y2 y1 y0 m1 m0 d1 d0 hy3 hy2 hy1 hy0 hm1 hm0 hd1 hd0 []
    simpa using this)
  refine ⟨e1, e2.trans e1.symm, ?_⟩
  simp only [string2time1904, e1, e2]

/-- C20 on the example of the usage message, which lacks the seconds. -/
theorem partial_datetime_is_date_witness :
    string2tm (cchars "2015-06-19T21:39") = some ⟨0, 0, 0, 19, 5, 115, 0, 0, -1⟩
      ∧ string2time1904 mktimeUTC "2015-06-19T21:39" = string2time1904 mktimeUTC "2015-06-19" :=
  have h := partial_datetime_is_date mktimeUTC "2015-06-19T21:39" "2015-06-19" 2 0 1 5 0 6 1 9
    (cchars "T21:39") (by decide) (by decide) (by decide) (by decide) (by decide) (by decide)
    (by decide) (by decide) (by decide) (by decide) (by decide) (by decide)
  ⟨h.1, h.2.2⟩

/-! ## C18: the legacy text format -/

/-- None of the four date formats converts anything on a text that starts with the
letter `J`. -/
theorem sscanf_on_J (rest : List Nat) :
    sscanf_s (74 :: rest) "%04u-%02u-%02uT%02u:%02u:%02u" = (0, [])
      ∧ sscanf_s (74 :: rest) "%04u%02u%02uT%02u%02u%02u" = (0, [])
      ∧ sscanf_s (74 :: rest) "%04u-%02u-%02u" = (0, [])
      ∧ sscanf_s (74 :: rest) "%04u%02u%02u" = (0, []) := by
  have hw : skipWs (74 :: rest) = 74 :: rest := by
    simp [skipWs, List.dropWhile, isspace]
  have h4 : scanUInt (some 4) (74 :: rest) = none := by
    have hd : isdigit 74 = false := by decide
    simp [scanUInt, List.takeWhile, hd]
  refine ⟨?_, ?_, ?_, ?_⟩
  · simp [sscanf_s, parseFormat_A, scanItems, hw, h4]
  · simp [sscanf_s, parseFormat_B, scanItems, hw, h4]
  · simp [sscanf_s, parseFormat_C, scanItems, hw, h4]
  · simp [sscanf_s, parseFormat_D, scanItems, hw, h4]

/-- A text on which the legacy format converts anything starts with the letter
`J`. -/
theorem johan_starts_with_J (s : List Nat) (h : (sscanf_s s "Johan (%uj%um)").1 = 2) :
    ∃ rest, s = 74 :: rest := by
  cases s with
  | nil =>
    exfalso
    revert h
    decide
  | cons c rest =>
    by_cases hc : c = 74
    · exact ⟨rest, by rw [hc]⟩
    · exfalso
      have hsp : isspace 74 = false := by decide
      simp [sscanf_s, parseFormat_J, scanItems, hsp, hc] at h

/-- C18. For every text from which the legacy format `Johan (<N>j<M>m)` converts the
two unsigned numbers `N` and `M`, the structure handed to `mktime` has day 1, time
00:00:00, `tm_year = k / 12` and `tm_mon = k % 12`, where
`k = ((2003 - 1900) * 12 + 11 + 12 * N + M) mod 2^32`. -/
theorem johan_fields (s : List Nat) (N M : Nat)
    (h : sscanf_s s "Johan (%uj%um)" = (2, [N, M])) :
    string2tm s
      = some ⟨0, 0, 0, 1,
          ((((2003 - 1900) * 12 + 11 + 12 * N + M) % 2 ^ 32 % 12 : Nat) : Int),
          ((((2003 - 1900) * 12 + 11 + 12 * N + M) % 2 ^ 32 / 12 : Nat) : Int), 0, 0, -1⟩ := by
  obtain ⟨rest, rfl⟩ := johan_starts_with_J s (by rw [h])
  obtain ⟨hA, hB, hC, hD⟩ := sscanf_on_J rest
  have hk : ((M + N * 12 % 2 ^ 32) % 2 ^ 32 + ((2003 - 1900) * 12 + 11)) % 2 ^ 32
      = ((2003 - 1900) * 12 + 11 + 12 * N + M) % 2 ^ 32 := by omega
  simp only [string2tm, hA, hB, hC, hD, h, storeFields, List.getD_cons_zero,
    List.getD_cons_succ, hk]
  simp

/-- C18 on the two examples: no offset gives December 2003, one month gives
January 2004. -/
theorem johan_fields_witness :
    string2tm (cchars "Johan (0j0m)") = some ⟨0, 0, 0, 1, 11, 103, 0, 0, -1⟩
      ∧ string2tm (cchars "Johan (0j1m)") = some ⟨0, 0, 0, 1, 0, 104, 0, 0, -1⟩ :=
  ⟨johan_fields (cchars "Johan (0j0m)") 0 0 (by decide),
    johan_fields (cchars "Johan (0j1m)") 0 1 (by decide)⟩

/-! ## C12: a date text that gives 0 -/

/-- C12. When the `--create` text matches none of the formats (neither date-time
format converts six fields, neither date-only format converts three, the legacy
format does not convert two), `string2time1904` returns 0; and whenever
`string2time1904` returns 0 on the `--create` text, for want of a match or because
the matched date is the epoch itself, `main` returns -1 whatever the file and the
number of loop iterations granted, the file being left as it was and nothing being
printed. -/
theorem zero_date_exits (mktime : tm → Int) :
    (∀ text : String,
        (sscanf_s (cchars text) "%04u-%02u-%02uT%02u:%02u:%02u").1 ≠ 6 →
        (sscanf_s (cchars text) "%04u%02u%02uT%02u%02u%02u").1 ≠ 6 →
        (sscanf_s (cchars text) "%04u-%02u-%02u").1 ≠ 3 →
        (sscanf_s (cchars text) "%04u%02u%02u").1 ≠ 3 →
        (sscanf_s (cchars text) "Johan (%uj%um)").1 ≠ 2 →
        string2time1904 mktime text = 0)
      ∧ ∀ (t : Target) (n : Nat) (argv : List String) (file : List Byte) (text : String),
          getCmdOption argv "--create" = some text →
          string2time1904 mktime text = 0 →
          main t (string2time1904 mktime) n argv file = ⟨.exit (-1), file, none⟩ := by
  constructor
  · intro text h1 h2 h3 h4 h5
    simp only [string2time1904, string2tm, h1, h2, h3, h4, h5, if_false]
  · intro t n argv file text hdate hzero
    unfold main
    simp only [hdate, hzero]
    split <;> simp

/-- C12 on a text without any match and on the text of the epoch read as UTC. -/
theorem zero_date_exits_witness :
    string2time1904 mktimeUTC "tomorrow" = 0
      ∧ main .x64 (string2time1904 mktimeUTC) 10
          ["mp4date", "--file", "a.mp4", "--create", "1904-01-01T00:00:00"] minimalFile
        = ⟨.exit (-1), minimalFile, none⟩ :=
  ⟨(zero_date_exits mktimeUTC).1 "tomorrow" (by decide) (by decide) (by decide) (by decide)
      (by decide),
    (zero_date_exits mktimeUTC).2 .x64 10
      ["mp4date", "--file", "a.mp4", "--create", "1904-01-01T00:00:00"] minimalFile
      "1904-01-01T00:00:00" (by decide) (by decide)⟩

/-! ## C13: printing a time and parsing it back -/

theorem parseFormat_P :
    parseFormat "%04u-%02u-%02uT%02u:%02u:%02u\n"
      = [.uint true (some 4), .lit 45, .uint true (some 2), .lit 45, .uint true (some 2),
          .lit 84, .uint true (some 2), .lit 58, .uint true (some 2), .lit 58,
          .uint true (some 2), .lit 10] := by
  decide

theorem toUInt64_toTimeT (n : Nat) (h : n < 2 ^ 64) : toUInt64 (toTimeT n) = n := by
  have h1 : n % 2 ^ 64 = n := Nat.mod_eq_of_lt h
  unfold toUInt64 toTimeT
  rw [h1]
  split <;> omega

/-- The text printed for calendar fields that fit the widths of the format. -/
theorem printTime1904_chars (localtime : Int → tm) (t : Nat)
    (hy : 0 ≤ 1900 + (localtime (toTimeT (time1904to1970 t))).tm_year
      ∧ 1900 + (localtime (toTimeT (time1904to1970 t))).tm_year ≤ 9999)
    (hm : 0 ≤ 1 + (localtime (toTimeT (time1904to1970 t))).tm_mon
      ∧ 1 + (localtime (toTimeT (time1904to1970 t))).tm_mon ≤ 99)
    (hd : 0 ≤ (localtime (toTimeT (time1904to1970 t))).tm_mday
      ∧ (localtime (toTimeT (time1904to1970 t))).tm_mday ≤ 99)
    (hh : 0 ≤ (localtime (toTimeT (time1904to1970 t))).tm_hour
      ∧ (localtime (toTimeT (time1904to1970 t))).tm_hour ≤ 99)
    (hn : 0 ≤ (localtime (toTimeT (time1904to1970 t))).tm_min
      ∧ (localtime (toTimeT (time1904to1970 t))).tm_min ≤ 99)
    (hs : 0 ≤ (localtime (toTimeT (time1904to1970 t))).tm_sec
      ∧ (localtime (toTimeT (time1904to1970 t))).tm_sec ≤ 99) :
    printTime1904 localtime t
      = dateChars
          ((1900 + (localtime (toTimeT (time1904to1970 t))).tm_year).toNat / 1000)
          ((1900 + (localtime (toTimeT (time1904to1970 t))).tm_year).toNat / 100 % 10)
          ((1900 + (localtime (toTimeT (time1904to1970 t))).tm_year).toNat / 10 % 10)
          ((1900 + (localtime (toTimeT (time1904to1970 t))).tm_year).toNat % 10)
          ((1 + (localtime (toTimeT (time1904to1970 t))).tm_mon).toNat / 10)
          ((1 + (localtime (toTimeT (time1904to1970 t))).tm_mon).toNat % 10)
          ((localtime (toTimeT (time1904to1970 t))).tm_mday.toNat / 10)
          ((localtime (toTimeT (time1904to1970 t))).tm_mday.toNat % 10)
        ++ (timeChars
          ((localtime (toTimeT (time1904to1970 t))).tm_hour.toNat / 10)
          ((localtime (toTimeT (time1904to1970 t))).tm_hour.toNat % 10)
          ((localtime (toTimeT (time1904to1970 t))).tm_min.toNat / 10)
          ((localtime (toTimeT (time1904to1970 t))).tm_min.toNat % 10)
          ((localtime (toTimeT (time1904to1970 t))).tm_sec.toNat / 10)
          ((localtime (toTimeT (time1904to1970 t))).tm_sec.toNat % 10) ++ [10]) := by
  simp only [printTime1904]
  rw [parseFormat_P]
  simp only [printf]
  rw [printUInt4 _ hy.1 hy.2, printUInt2 _ hm.1 hm.2, printUInt2 _ hd.1 hd.2,
    printUInt2 _ hh.1 hh.2, printUInt2 _ hn.1 hn.2, printUInt2 _ hs.1 hs.2]
  rfl

/-- Printing a representable time and parsing the text gives the time back. -/
theorem roundtrip_of_calendar (localtime : Int → tm) (mktime : tm → Int) (t : Nat)
    (s : String) (ht : t < 2 ^ 64)
    (hs : cchars s = printTime1904 localtime t ∨ cchars s ++ [10] = printTime1904 localtime t)
    (hy : 0 ≤ 1900 + (localtime (toTimeT (time1904to1970 t))).tm_year
      ∧ 1900 + (localtime (toTimeT (time1904to1970 t))).tm_year ≤ 9999)
    (hm : 0 ≤ 1 + (localtime (toTimeT (time1904to1970 t))).tm_mon
      ∧ 1 + (localtime (toTimeT (time1904to1970 t))).tm_mon ≤ 99)
    (hd : 0 ≤ (localtime (toTimeT (time1904to1970 t))).tm_mday
      ∧ (localtime (toTimeT (time1904to1970 t))).tm_mday ≤ 99)
    (hh : 0 ≤ (localtime (toTimeT (time1904to1970 t))).tm_hour
      ∧ (localtime (toTimeT (time1904to1970 t))).tm_hour ≤ 99)
    (hn : 0 ≤ (localtime (toTimeT (time1904to1970 t))).tm_min
      ∧ (localtime (toTimeT (time1904to1970 t))).tm_min ≤ 99)
    (hsec : 0 ≤ (localtime (toTimeT (time1904to1970 t))).tm_sec
      ∧ (localtime (toTimeT (time1904to1970 t))).tm_sec ≤ 99)
    (hinv : mktime ⟨(localtime (toTimeT (time1904to1970 t))).tm_sec,
        (localtime (toTimeT (time1904to1970 t))).tm_min,
        (localtime (toTimeT (time1904to1970 t))).tm_hour,
        (localtime (toTimeT (time1904to1970 t))).tm_mday,
        (localtime (toTimeT (time1904to1970 t))).tm_mon,
        (localtime (toTimeT (time1904to1970 t))).tm_year, 0, 0, -1⟩
      = toTimeT (time1904to1970 t)) :
    string2time1904 mktime s = t := by
  have hp := printTime1904_chars localtime t hy hm hd hh hn hsec
  generalize localtime (toTimeT (time1904to1970 t)) = c at hy hm hd hh hn hsec hinv hp
  obtain ⟨suffix, hcs⟩ : ∃ suffix, cchars s
      = dateChars ((1900 + c.tm_year).toNat / 1000) ((1900 + c.tm_year).toNat / 100 % 10)
          ((1900 + c.tm_year).toNat / 10 % 10) ((1900 + c.tm_year).toNat % 10)
          ((1 + c.tm_mon).toNat / 10) ((1 + c.tm_mon).toNat % 10)
          (c.tm_mday.toNat / 10) (c.tm_mday.toNat % 10)
        ++ (timeChars (c.tm_hour.toNat / 10) (c.tm_hour.toNat % 10)
          (c.tm_min.toNat / 10) (c.tm_min.toNat % 10)
          (c.tm_sec.toNat / 10) (c.tm_sec.toNat % 10) ++ suffix) := by
    rcases hs with h | h
    · exact ⟨[10], by rw [h, hp]⟩
    · refine ⟨[], ?_⟩
      rw [hp, ← List.append_assoc] at h
      rw [List.append_cancel_right h, List.append_nil]
  have hit := scanItems_A_datetime
    ((1900 + c.tm_year).toNat / 1000) ((1900 + c.tm_year).toNat / 100 % 10)
    ((1900 + c.tm_year).toNat / 10 % 10) ((1900 + c.tm_year).toNat % 10)
    ((1 + c.tm_mon).toNat / 10) ((1 + c.tm_mon).toNat % 10)
    (c.tm_mday.toNat / 10) (c.tm_mday.toNat % 10)
    (c.tm_hour.toNat / 10) (c.tm_hour.toNat % 10)
    (c.tm_min.toNat / 10) (c.tm_min.toNat % 10)
    (c.tm_sec.toNat / 10) (c.tm_sec.toNat % 10)
    (by omega) (by omega) (by omega) (by omega) (by omega) (by omega) (by omega) (by omega)
    (by omega) (by omega) (by omega) (by omega) (by omega) (by omega) suffix
  rw [← hcs] at hit
  have r1 := sscanf_of_items hit (by simp)
  have hY : (1900 + c.tm_year).toNat / 1000 * 1000 + (1900 + c.tm_year).toNat / 100 % 10 * 100
      + (1900 + c.tm_year).toNat / 10 % 10 * 10 + (1900 + c.tm_year).toNat % 10
      = (1900 + c.tm_year).toNat := by omega
  have hM : (1 + c.tm_mon).toNat / 10 * 10 + (1 + c.tm_mon).toNat % 10 = (1 + c.tm_mon).toNat := by
    omega
  have hD : c.tm_mday.toNat / 10 * 10 + c.tm_mday.toNat % 10 = c.tm_mday.toNat := by omega
  have hH : c.tm_hour.toNat / 10 * 10 + c.tm_hour.toNat % 10 = c.tm_hour.toNat := by omega
  have hN : c.tm_min.toNat / 10 * 10 + c.tm_min.toNat % 10 = c.tm_min.toNat := by omega
  have hS : c.tm_sec.toNat / 10 * 10 + c.tm_sec.toNat % 10 = c.tm_sec.toNat := by omega
  rw [hY, hM, hD, hH, hN, hS] at r1
  have htm : string2tm (cchars s)
      = some ⟨c.tm_sec, c.tm_min, c.tm_hour, c.tm_mday, c.tm_mon, c.tm_year, 0, 0, -1⟩ := by
    simp only [string2tm, r1, List.length_cons, List.length_nil, storeFields, setField, adjust,
      toInt32_small _ (by omega : (1900 + c.tm_year).toNat < 10000),
      toInt32_small _ (by omega : (1 + c.tm_mon).toNat < 10000),
      toInt32_small _ (by omega : c.tm_mday.toNat < 10000),
      toInt32_small _ (by omega : c.tm_hour.toNat < 10000),
      toInt32_small _ (by omega : c.tm_min.toNat < 10000),
      toInt32_small _ (by omega : c.tm_sec.toNat < 10000)]
    simp only [Nat.zero_add, Nat.reduceAdd, Nat.cast_ofNat, if_true, Option.some.injEq,
      tm.mk.injEq, and_true, true_and]
    omega
  have hlt : time1904to1970 t < 2 ^ 64 := Nat.mod_lt _ (by decide)
  simp only [string2time1904, htm, hinv, toUInt64_toTimeT _ hlt]
  simp only [time1904to1970, time1970to1904, diff]
  omega

/-! ## The calendar read as UTC -/

/-- Bounds on the year of era and the day of year computed from a day of era. -/
theorem civil_doy (doe e f g yoe i j doy : Int) (h1 : 0 ≤ doe) (h2 : doe ≤ 146096)
    (he : doe / 1460 = e) (hf : doe / 36524 = f) (hg : doe / 146096 = g)
    (hyoe : (doe - e + f - g) / 365 = yoe) (hi : yoe / 4 = i) (hj : yoe / 100 = j)
    (hdoy : doe - (365 * yoe + i - j) = doy) :
    0 ≤ yoe ∧ yoe ≤ 399 ∧ 0 ≤ doy ∧ doy ≤ 365 := by
  have hfb : 0 ≤ f ∧ f ≤ 4 := by omega
  have hjb : 0 ≤ j ∧ j ≤ 3 := by omega
  have hy : 0 ≤ yoe ∧ yoe ≤ 399 := by omega
  obtain ⟨hf0, hf4⟩ := hfb
  obtain ⟨hj0, hj3⟩ := hjb
  have hdb : 0 ≤ doy ∧ doy ≤ 365 := by
    interval_cases f <;> interval_cases j <;> omega
  exact ⟨hy.1, hy.2, hdb.1, hdb.2⟩

/-- Bounds on the month and the day of month computed from a day of year. -/
theorem civil_day (doy mp d : Int) (h1 : 0 ≤ doy) (h2 : doy ≤ 365)
    (hmp : (5 * doy + 2) / 153 = mp) (hd : doy - (153 * mp + 2) / 5 + 1 = d) :
    0 ≤ mp ∧ mp ≤ 11 ∧ 1 ≤ d ∧ d ≤ 31 := by
  have hmb : 0 ≤ mp ∧ mp ≤ 11 := by omega
  obtain ⟨hm0, hm11⟩ := hmb
  have hdd : 1 ≤ d ∧ d ≤ 31 := by
    interval_cases mp <;> omega
  exact ⟨hm0, hm11, hdd.1, hdd.2⟩

/-- In UTC, from 1904 to the end of the year 9999, the calendar fields of a time fit
the widths of the print format and `mktime` maps them back to the time. -/
theorem utc_calendar (x : Int) (hlo : -2082844800 ≤ x) (hhi : x ≤ 253402300799) :
    (0 ≤ 1900 + (localtimeUTC x).tm_year ∧ 1900 + (localtimeUTC x).tm_year ≤ 9999)
      ∧ (0 ≤ 1 + (localtimeUTC x).tm_mon ∧ 1 + (localtimeUTC x).tm_mon ≤ 99)
      ∧ (0 ≤ (localtimeUTC x).tm_mday ∧ (localtimeUTC x).tm_mday ≤ 99)
      ∧ (0 ≤ (localtimeUTC x).tm_hour ∧ (localtimeUTC x).tm_hour ≤ 99)
      ∧ (0 ≤ (localtimeUTC x).tm_min ∧ (localtimeUTC x).tm_min ≤ 99)
      ∧ (0 ≤ (localtimeUTC x).tm_sec ∧ (localtimeUTC x).tm_sec ≤ 99)
      ∧ mktimeUTC ⟨(localtimeUTC x).tm_sec, (localtimeUTC x).tm_min, (localtimeUTC x).tm_hour,
          (localtimeUTC x).tm_mday, (localtimeUTC x).tm_mon, (localtimeUTC x).tm_year,
          0, 0, -1⟩ = x := by
  simp only [localtimeUTC, mktimeUTC, daysFromCivil]
  generalize hdays : x / 86400 = days
  generalize hsecs : x % 86400 = secs
  generalize hz : days + 719468 = z
  generalize hera : z / 146097 = era
  generalize hdoe : z - era * 146097 = doe
  generalize he : doe / 1460 = e
  generalize hf : doe / 36524 = f
  generalize hg : doe / 146096 = g
  generalize hyoe : (doe - e + f - g) / 365 = yoe
  generalize hi : yoe / 4 = i
  generalize hj : yoe / 100 = j
  generalize hdoy : doe - (365 * yoe + i - j) = doy
  generalize hmp : (5 * doy + 2) / 153 = mp
  generalize hd : doy - (153 * mp + 2) / 5 + 1 = d
  have hb := civil_doy doe e f g yoe i j doy (by omega) (by omega) he hf hg hyoe hi hj hdoy
  obtain ⟨hy0, hy1, hdy0, hdy1⟩ := hb
  have hb2 := civil_day doy mp d hdy0 hdy1 hmp hd
  obtain ⟨hm0, hm1, hd0, hd1⟩ := hb2
  have hsec : 0 ≤ secs ∧ secs < 86400 := by omega
  have hera1 : 0 ≤ era ∧ era ≤ 24 := by omega
  by_cases hc : mp < 10
  · have hm3 : ¬ (mp + 3 ≤ 2) := by omega
    have e1 : (mp + 3 - 1) % 12 = mp + 2 := by omega
    have e2 : (mp + 3 - 1) / 12 = 0 := by omega
    have e3 : ¬ (mp + 2 + 1 ≤ 2) := by omega
    have e4 : mp + 2 + 1 > 2 := by omega
    simp only [hc, if_true, hm3, if_false, e1, e2, e3, e4]
    refine ⟨by omega, by omega, by omega, by omega, by omega, by omega, ?_⟩
    have a1 : yoe + era * 400 + 0 - 1900 + 1900 + 0 = yoe + era * 400 := by omega
    have a2 : (yoe + era * 400) / 400 = era := by omega
    have a3 : yoe + era * 400 - era * 400 = yoe := by omega
    have a4 : mp + 2 + 1 - 3 = mp := by omega
    have a5 : secs / 3600 * 3600 + secs / 60 % 60 * 60 + secs % 60 = secs := by omega
    rw [a1, a2, a3, a4, hi, hj]
    omega
  · have hm3 : mp - 9 ≤ 2 := by omega
    have e1 : (mp - 9 - 1) % 12 = mp - 10 := by omega
    have e2 : (mp - 9 - 1) / 12 = 0 := by omega
    have e3 : mp - 10 + 1 ≤ 2 := by omega
    have e4 : ¬ (mp - 10 + 1 > 2) := by omega
    simp only [hc, if_true, hm3, if_false, e1, e2, e3, e4]
    refine ⟨by omega, by omega, by omega, by omega, by omega, by omega, ?_⟩
    have a1 : yoe + era * 400 + 1 - 1900 + 1900 + 0 - 1 = yoe + era * 400 := by omega
    have a2 : (yoe + era * 400) / 400 = era := by omega
    have a3 : yoe + era * 400 - era * 400 = yoe := by omega
    have a4 : mp - 10 + 1 + 9 = mp := by omega
    have a5 : secs / 3600 * 3600 + secs / 60 % 60 * 60 + secs % 60 = secs := by omega
    rw [a1, a2, a3, a4, hi, hj]
    omega

/-- In UTC every epoch-1904 value from 0 (1904-01-01T00:00:00) to 255485145599
(9999-12-31T23:59:59) is representable. -/
theorem utc_representable (t : Nat) (h : t ≤ 255485145599) :
    representable localtimeUTC mktimeUTC t := by
  have h64 : t < 2 ^ 64 := by omega
  have hx : toTimeT (time1904to1970 t) = (t : Int) - 2082844800 := by
    simp only [toTimeT, time1904to1970, diff]
    have hm : (t + 2 ^ 64 - 2082844800) % 2 ^ 64 % 2 ^ 64 = (t + 2 ^ 64 - 2082844800) % 2 ^ 64 :=
      Nat.mod_mod _ _
    rw [hm]
    split <;> omega
  have hc := utc_calendar ((t : Int) - 2082844800) (by omega) (by omega)
  unfold representable
  rw [hx]
  exact ⟨h64, hc⟩

/-- C13. Let `t` be an epoch-1904 value that is representable: the calendar fields
that `localtime` gives for `t - 2082844800` fit the widths of the format and `mktime`
maps them, with `tm_isdst = -1`, back to `t - 2082844800`.  Then `string2time1904`
applied to the text printed by `printTime1904`, with or without its final newline,
returns `t`.  When the calendar is read as UTC every value from 0 to 255485145599,
that is from the year 1904 to the end of the year 9999, is representable. -/
theorem print_parse_roundtrip :
    (∀ (localtime : Int → tm) (mktime : tm → Int) (t : Nat) (s : String),
        representable localtime mktime t →
        (cchars s = printTime1904 localtime t ∨ cchars s ++ [10] = printTime1904 localtime t) →
        string2time1904 mktime s = t)
      ∧ ∀ (t : Nat) (s : String), t ≤ 255485145599 →
          (cchars s = printTime1904 localtimeUTC t
            ∨ cchars s ++ [10] = printTime1904 localtimeUTC t) →
          string2time1904 mktimeUTC s = t := by
  have key : ∀ (localtime : Int → tm) (mktime : tm → Int) (t : Nat) (s : String),
      representable localtime mktime t →
      (cchars s = printTime1904 localtime t ∨ cchars s ++ [10] = printTime1904 localtime t) →
      string2time1904 mktime s = t := by
    intro localtime mktime t s hrep hs
    obtain ⟨ht, hy, hm, hd, hh, hn, hsec, hinv⟩ := hrep
    exact roundtrip_of_calendar localtime mktime t s ht hs hy hm hd hh hn hsec hinv
  exact ⟨key, fun t s ht hs => key localtimeUTC mktimeUTC t s (utc_representable t ht) hs⟩

/-- C13 in UTC at the time 2015-06-19T21:39:00. -/
theorem print_parse_roundtrip_witness :
    cchars "2015-06-19T21:39:00" ++ [10] = printTime1904 localtimeUTC 3517594740
      ∧ string2time1904 mktimeUTC "2015-06-19T21:39:00" = 3517594740 :=
  ⟨by decide,
    print_parse_roundtrip.2 3517594740 "2015-06-19T21:39:00" (by decide) (Or.inr (by decide))⟩

/-! ## C14: end to end on the minimal file -/

theorem string2time1904_lt (mktime : tm → Int) (s : String) :
    string2time1904 mktime s < 2 ^ 64 := by
  unfold string2time1904
  split
  · decide
  · exact Nat.mod_lt _ (by decide)

set_option maxRecDepth 8000 in
/-- C14. On the minimal 36-octet file (`ftyp` of length 12, `moov` header of length
24, `mvhd` of length 16 with version 0, 3 reserved octets and creation time 0) and
with `--create 2015-06-19T21:39:00`: the text is parsed to the calendar fields
2015-06-19 21:39:00; with `--dry-run` the run returns 0, leaves the file as it was
and prints the time parsed, which in UTC is 3517594740 and is printed as
`2015-06-19T21:39:00`; without `--dry-run` the run returns 0 and the file becomes
its first 32 octets followed by the big-endian form of the time parsed, whatever
the time zone of `mktime` (provided the time parsed is not 0), that is of
3517594740 in UTC. -/
theorem minimal_file_end_to_end :
    ∀ t : Target,
      minimalFile.length = 36
        ∧ string2tm (cchars "2015-06-19T21:39:00") = some ⟨0, 39, 21, 19, 5, 115, 0, 0, -1⟩
        ∧ main t (string2time1904 mktimeUTC) 10
            ["mp4date", "--create", "2015-06-19T21:39:00", "--dry-run", "--file", "a.mp4"]
            minimalFile
          = ⟨.exit 0, minimalFile, some 3517594740⟩
        ∧ printTime1904 localtimeUTC 3517594740 = cchars "2015-06-19T21:39:00" ++ [10]
        ∧ main t (string2time1904 mktimeUTC) 10
            ["mp4date", "--create", "2015-06-19T21:39:00", "--file", "a.mp4"] minimalFile
          = ⟨.exit 0, minimalFile.take 32 ++ be32 3517594740, none⟩
        ∧ ∀ mktime : tm → Int, string2time1904 mktime "2015-06-19T21:39:00" ≠ 0 →
            main t (string2time1904 mktime) 10
                ["mp4date", "--create", "2015-06-19T21:39:00", "--file", "a.mp4"] minimalFile
              = ⟨.exit 0,
                minimalFile.take 32
                  ++ be32 (string2time1904 mktime "2015-06-19T21:39:00" % 2 ^ 32), none⟩ := by
  intro t
  refine ⟨by decide, by decide, by cases t <;> decide, by decide, by cases t <;> decide, ?_⟩
  intro mktime hne
  have hlt := string2time1904_lt mktime "2015-06-19T21:39:00"
  have hmod : string2time1904 mktime "2015-06-19T21:39:00" % 2 ^ 64
      = string2time1904 mktime "2015-06-19T21:39:00" := Nat.mod_eq_of_lt hlt
  have hmain := main_write_mode t (string2time1904 mktime) 10
    ["mp4date", "--create", "2015-06-19T21:39:00", "--file", "a.mp4"] minimalFile
    "a.mp4" "2015-06-19T21:39:00" (by decide) (by decide) (by decide) (by rw [hmod]; exact hne)
  rw [hmain, hmod]
  have hscan : scanLoop t 10 (mp4Stream.open minimalFile) .findFtyp
      = .exited ⟨minimalFile, 28⟩ .found := by
    cases t <;> decide
  have hp := patch_write32 ⟨minimalFile, 28⟩
    (string2time1904 mktime "2015-06-19T21:39:00") 0 (by decide) (by decide) (by decide)
  simp only [run, hscan, hp, length_be32]
  have hdrop : minimalFile.drop (28 + 4 + 4) = [] := by decide
  rw [hdrop, List.append_nil]

end Mp4Date
